import Mathlib

/-!
# Heap-file layer (heapfile.C): shallow embedding and verified properties

The embedding follows `src/heapfile.C` function by function.  The collaborators
the file calls (slotted page, buffer manager, enumerations and constants of the
headers) are not part of the source under study; they are modelled from the
specification and marked as such.

Conventions of the embedding:
* `int` values are mathematical integers; where the source computes on
  caller-supplied values (`offset + length - 1`, `iattr - ifltr`) the result is
  reduced to the 32-bit two's-complement range with `wrap32`; the counters of
  the header page are kept as mathematical integers;
* a `Page*` is the number of the page whose buffer frame it points to
  (`none` is the null pointer);
* a buffer is a list of bytes; a read outside the list yields `0`.
-/

namespace HeapFileModel

/-! ## Values -/

/-- One byte of a record or literal buffer. -/
abbrev Byte := Fin 256

/-- Status codes used by heapfile.C (declared in error.h); `other` stands for
any further collaborator error (I/O, buffer exhaustion). -/
inductive Status where
  | OK
  | FILEEOF
  | BADSCANPARM
  | INVALIDRECLEN
  | FILEEXISTS
  | NORECORDS
  | ENDOFPAGE
  | NOSPACE
  | INVALIDSLOTNO
  | PAGENOTPINNED
  | BADPAGENO
  | other (code : Nat)
  deriving DecidableEq, Repr

/-- Record identifier: `struct RID { int pageNo; int slotNo; }`. -/
structure RID where
  pageNo : Int
  slotNo : Int
  deriving DecidableEq, Repr

/-- The null record identifier `NULLRID = {-1,-1}`. -/
def NULLRID : RID := ⟨-1, -1⟩

/-- Record: `struct Record { void* data; int length; }`; `data` is the buffer the
pointer refers to. -/
structure Record where
  data : List Byte
  length : Int
  deriving DecidableEq, Repr

/-- Attribute types `enum Datatype`; `other` is any value outside the three
enumerators (the source tests for it). -/
inductive Datatype where
  | STRING
  | INTEGER
  | FLOAT
  | other (tag : Nat)
  deriving DecidableEq, Repr

/-- Comparison operators `enum Operator`; `other` is any value outside the six
enumerators. -/
inductive Operator where
  | LT
  | LTE
  | EQ
  | GTE
  | GT
  | NE
  | other (tag : Nat)
  deriving DecidableEq, Repr

/-- Header page contents `FileHdrPage`. -/
structure FileHdrPage where
  fileName : String
  pageCnt : Int
  recCnt : Int
  firstPage : Int
  lastPage : Int
  deriving DecidableEq, Repr

/-! ## Machine arithmetic and buffers -/

/-- Reduction of an integer to the 32-bit two's-complement range. -/
def wrap32 (x : Int) : Int := (x + 2147483648) % 4294967296 - 2147483648

/-- Conversion `(unsigned int) x`. -/
def toU32 (x : Int) : Int := x % 4294967296

/-- The values of type `int`. -/
def IsInt32 (x : Int) : Prop := -2147483648 ≤ x ∧ x ≤ 2147483647

instance (x : Int) : Decidable (IsInt32 x) := by
  unfold IsInt32; infer_instance

/-- Byte at address `buf + i`; `0` outside the buffer. -/
def readByte (buf : List Byte) (i : Int) : Byte :=
  if i < 0 then 0 else buf.getD i.toNat 0

/-- The four bytes `memcpy(&v, buf + off, length)` leaves in a 4-byte object:
the first `len` bytes come from the buffer, the others are modelled as `0`
(startScan admits INTEGER and FLOAT only with length 4). -/
def memcpy4 (buf : List Byte) (off : Int) (len : Int) : List Byte :=
  (List.range 4).map (fun k => if (k : Int) < len then readByte buf (off + k) else 0)

/-- Little-endian value of four bytes as an unsigned word. -/
def decodeWord (bs : List Byte) : Nat :=
  (bs.getD 0 0).val + 256 * (bs.getD 1 0).val + 65536 * (bs.getD 2 0).val
    + 16777216 * (bs.getD 3 0).val

/-- Four bytes read as an `int` (little-endian, two's complement). -/
def decodeInt (bs : List Byte) : Int :=
  if decodeWord bs < 2147483648 then (decodeWord bs : Int)
  else (decodeWord bs : Int) - 4294967296

/-- What the operator switch of matchRec observes of the `float diff`: its
relation to `0.0`. -/
inductive FloatCls where
  | neg
  | zero
  | pos
  | nan
  deriving DecidableEq, Repr

/-- Conversion of an `int` to `float`: rounding keeps the sign and maps only 0
to 0. -/
def FloatCls.ofInt (i : Int) : FloatCls :=
  if i < 0 then FloatCls.neg else if i = 0 then FloatCls.zero else FloatCls.pos

/-- A binary32 word is a NaN. -/
def floatIsNaN (u : Nat) : Bool := decide (2139095040 < u % 2147483648)

/-- A binary32 word is an infinity. -/
def floatIsInf (u : Nat) : Bool := decide (u % 2147483648 = 2139095040)

/-- Order-preserving integer key of a non-NaN binary32 word (both zeros map to 0). -/
def floatKey (u : Nat) : Int :=
  if u < 2147483648 then (u : Int) else -((u % 2147483648 : Nat) : Int)

/-- Class of the IEEE-754 difference `fattr - ffltr` of two binary32 words. -/
def floatSubCls (a l : Nat) : FloatCls :=
  if floatIsNaN a || floatIsNaN l then FloatCls.nan
  else if floatIsInf a && floatIsInf l && decide (floatKey a = floatKey l) then FloatCls.nan
  else FloatCls.ofInt (floatKey a - floatKey l)

/-- C library `strncmp(s1 + o1, s2 + o2, n)`: bytes are compared as unsigned
chars, the comparison stops at the first difference, after a NUL, or after `n`
bytes.  Only the sign of the result is specified by the C standard. -/
def strncmp (s1 : List Byte) (o1 : Int) (s2 : List Byte) (o2 : Int) : Nat → Int
  | 0 => 0
  | n + 1 =>
    if readByte s1 o1 ≠ readByte s2 o2 then
      ((readByte s1 o1).val : Int) - ((readByte s2 o2).val : Int)
    else if readByte s1 o1 = 0 then 0
    else strncmp s1 (o1 + 1) s2 (o2 + 1) n

/-! ## Handle state -/

/-- Data members of class HeapFile.  The header page contents live in the
buffer pool (see `World.header`); `curPage` is the page the pointer refers to. -/
structure HeapFile where
  headerPageNo : Int
  hdrDirtyFlag : Bool
  curPage : Option Int
  curPageNo : Int
  curDirtyFlag : Bool
  curRec : RID
  deriving DecidableEq, Repr

/-- Data members of class HeapFileScan (derived from HeapFile).  `filter` is the
caller-owned literal buffer, `none` being the null pointer. -/
structure HeapFileScan extends HeapFile where
  offset : Int
  length : Int
  type : Datatype
  filter : Option (List Byte)
  op : Operator
  markedPageNo : Int
  markedRec : RID
  deriving DecidableEq, Repr

/-! ## Collaborators -/

/-- Modelled from the spec: the slotted page collaborator (class Page, whose
source is not part of heapfile.C).  A page knows its own number (set by
`init`), stores the next-page link and holds its records in physical slot
order; a free slot is `none`. -/
structure Page where
  pageNo : Int
  nextPage : Int
  slots : List (Option Record)
  deriving DecidableEq, Repr

/-- Contents of a buffer frame that holds no initialised page. -/
def Page.blank : Page := ⟨0, 0, []⟩

/-- Indices of the live slots of a slot list whose first slot has index `i`. -/
def liveFrom : List (Option Record) → Nat → List Nat
  | [], _ => []
  | some _ :: t, i => i :: liveFrom t (i + 1)
  | none :: t, i => liveFrom t (i + 1)

/-- Modelled from the spec: slot numbers of the live records of a page, in
physical slot order. -/
def Page.liveSlots (pg : Page) : List Nat := liveFrom pg.slots 0

/-- Modelled from the spec: `first-record() → RID | NoRecords`.  The second
component is the out-parameter, left as it was on failure. -/
def Page.firstRecord (pg : Page) (out : RID) : Status × RID :=
  match pg.liveSlots with
  | [] => (Status.NORECORDS, out)
  | i :: _ => (Status.OK, ⟨pg.pageNo, i⟩)

/-- Modelled from the spec: `next-record(cur) → RID | EndOfPage`: the first live
slot physically after slot `cur.slotNo`; for the null RID (slot -1) this is the
first live slot of the page.  The last argument is the out-parameter, left as
it was on failure. -/
def Page.nextRecord (pg : Page) (cur : RID) (out : RID) : Status × RID :=
  match pg.liveSlots.find? (fun (i : Nat) => decide (cur.slotNo < (i : Int))) with
  | none => (Status.ENDOFPAGE, out)
  | some i => (Status.OK, ⟨pg.pageNo, i⟩)

/-- Modelled from the spec: `get-record(rid) → Record`; `none` is the failure
(status INVALIDSLOTNO) for a slot that holds no record. -/
def Page.getRecord (pg : Page) (rid : RID) : Option Record :=
  if rid.slotNo < 0 then none else (pg.slots.getD rid.slotNo.toNat none)

/-- Bytes occupied by the live records of a slot list. -/
def usedBytes : List (Option Record) → Int
  | [] => 0
  | some r :: t => r.length + usedBytes t
  | none :: t => usedBytes t

/-- Store a record in the first free slot, or in a new slot at the end;
returns the slot number used. -/
def placeRecord (rec : Record) : List (Option Record) → Nat → List (Option Record) × Nat
  | [], i => ([some rec], i)
  | none :: t, i => (some rec :: t, i)
  | some r :: t, i => ((some r :: (placeRecord rec t (i + 1)).1), (placeRecord rec t (i + 1)).2)

/-- Modelled from the spec: `insert-record(rec) → RID | PageFull`.  The page is
full for `rec` when the live records and `rec` together exceed the usable
capacity (page size minus fixed overhead). -/
def Page.insertRecord (capacity : Int) (pg : Page) (rec : Record) : Option (RID × Page) :=
  if usedBytes pg.slots + rec.length ≤ capacity then
    some (⟨pg.pageNo, (placeRecord rec pg.slots 0).2⟩,
          { pg with slots := (placeRecord rec pg.slots 0).1 })
  else none

/-- Modelled from the spec: `delete-record(rid)`; `none` is the failure (status
INVALIDSLOTNO) for a slot that holds no record. -/
def Page.deleteRecord (pg : Page) (rid : RID) : Option Page :=
  match pg.getRecord rid with
  | none => none
  | some _ => some { pg with slots := pg.slots.set rid.slotNo.toNat none }

/-- Modelled from the spec: `init(pageId)`: an empty page that knows its number. -/
def Page.init (pg : Page) (pageNo : Int) : Page :=
  { pg with pageNo := pageNo, slots := [] }

/-- Collaborator calls that reach the buffer manager or the file layer, or
that modify a page. -/
inductive Call where
  | openFile
  | getFirstPage
  | readPage (pageNo : Int)
  | unPinPage (pageNo : Int) (dirty : Bool)
  | allocPage
  | init (page : Int) (pageNo : Int)
  | setNextPage (page : Int) (next : Int)
  | insertRecord (page : Int) (rec : Record)
  | deleteRecord (page : Int) (rid : RID)
  | closeFile
  deriving DecidableEq, Repr

/-- Modelled from the spec: the state of the collaborators for one file: the
header page and the data pages as held by the buffering layer, the pin counts,
the page number the file hands out next, the constants PAGESIZE and DPFIXED of
the page header file, the script of outcomes of the fallible buffer-manager,
file and set-next-page calls (an empty script, or `OK`, lets the call proceed),
and the log of calls made so far. -/
structure World where
  header : FileHdrPage
  firstPageNo : Int
  pages : Int → Option Page
  pins : Int → Nat
  nextPageNo : Int
  PAGESIZE : Int
  DPFIXED : Int
  faults : List Status
  log : List Call

/-- The page a pointer to frame `p` refers to. -/
def World.pageAt (w : World) (p : Int) : Page := (w.pages p).getD Page.blank

/-- Replace the contents of page `p`. -/
def World.setPage (w : World) (p : Int) (pg : Page) : World :=
  { w with pages := fun k => if k = p then some pg else w.pages k }

/-- Record a call and take the next scripted outcome. -/
def World.enter (w : World) (c : Call) : Status × World :=
  match w.faults with
  | [] => (Status.OK, { w with log := w.log ++ [c] })
  | f :: fs => (f, { w with log := w.log ++ [c], faults := fs })

/-- Modelled from the spec: `read-page(file, pageId) → page` pins the page.  The
third component is the page-pointer out-parameter, left as it was on failure. -/
def World.readPage (w : World) (pageNo : Int) (ptr : Option Int) :
    Status × World × Option Int :=
  match w.enter (Call.readPage pageNo) with
  | (Status.OK, w1) =>
    if pageNo = w1.firstPageNo ∨ (w1.pages pageNo).isSome then
      (Status.OK, { w1 with pins := fun k => if k = pageNo then w1.pins k + 1 else w1.pins k },
        some pageNo)
    else (Status.BADPAGENO, w1, ptr)
  | (st, w1) => (st, w1, ptr)

/-- Modelled from the spec: `unpin-page(file, pageId, dirty) → status` releases
one pin; a page without a pin yields PAGENOTPINNED. -/
def World.unPinPage (w : World) (pageNo : Int) (dirty : Bool) : Status × World :=
  match w.enter (Call.unPinPage pageNo dirty) with
  | (Status.OK, w1) =>
    if w1.pins pageNo = 0 then (Status.PAGENOTPINNED, w1)
    else (Status.OK, { w1 with pins := fun k => if k = pageNo then w1.pins k - 1 else w1.pins k })
  | (st, w1) => (st, w1)

/-- Modelled from the spec: `allocate-page(file) → (pageId, page)` adds a pinned
page; the out-parameters are returned on success. -/
def World.allocPage (w : World) : Status × World × Option Int :=
  match w.enter Call.allocPage with
  | (Status.OK, w1) =>
    (Status.OK,
      { w1 with pages := fun k => if k = w1.nextPageNo then some Page.blank else w1.pages k,
                pins := fun k => if k = w1.nextPageNo then w1.pins k + 1 else w1.pins k,
                nextPageNo := w1.nextPageNo + 1 },
      some w1.nextPageNo)
  | (st, w1) => (st, w1, none)

/-- Modelled from the spec: `set-next-page(pageId)` on the page in frame `p`. -/
def World.setNextPage (w : World) (p : Int) (next : Int) : Status × World :=
  match w.enter (Call.setNextPage p next) with
  | (Status.OK, w1) => (Status.OK, w1.setPage p { w1.pageAt p with nextPage := next })
  | (st, w1) => (st, w1)

/-- `newPage->init(newPageNo)` on the page in frame `p`. -/
def World.initPage (w : World) (p : Int) (pageNo : Int) : World :=
  ({ w with log := w.log ++ [Call.init p pageNo] }).setPage p ((w.pageAt p).init pageNo)

/-- `curPage->insertRecord(rec, rid)` on the page in frame `p`; the RID is
returned on success, the failure status is NOSPACE. -/
def World.insertRecord (w : World) (p : Int) (rec : Record) : Status × World × Option RID :=
  match Page.insertRecord (w.PAGESIZE - w.DPFIXED) (w.pageAt p) rec with
  | some (rid, pg) =>
    (Status.OK, ({ w with log := w.log ++ [Call.insertRecord p rec] }).setPage p pg, some rid)
  | none => (Status.NOSPACE, { w with log := w.log ++ [Call.insertRecord p rec] }, none)

/-! ## Predicate evaluation and scan set-up -/

/-- The first switch of matchRec: the value of `diff` for the stored predicate. -/
def computeDiff (s : HeapFileScan) (filter : List Byte) (rec : Record) : FloatCls :=
  match s.type with
  | Datatype.INTEGER =>
    FloatCls.ofInt (wrap32 (decodeInt (memcpy4 rec.data s.offset s.length)
      - decodeInt (memcpy4 filter 0 s.length)))
  | Datatype.FLOAT =>
    floatSubCls (decodeWord (memcpy4 rec.data s.offset s.length))
      (decodeWord (memcpy4 filter 0 s.length))
  | Datatype.STRING =>
    FloatCls.ofInt (strncmp rec.data s.offset filter 0 s.length.toNat)
  | Datatype.other _ => FloatCls.zero

/-- The second switch of matchRec: the operator applied to `diff`. -/
def applyOp (op : Operator) (diff : FloatCls) : Bool :=
  match op with
  | Operator.LT => decide (diff = FloatCls.neg)
  | Operator.LTE => decide (diff = FloatCls.neg ∨ diff = FloatCls.zero)
  | Operator.EQ => decide (diff = FloatCls.zero)
  | Operator.GTE => decide (diff = FloatCls.pos ∨ diff = FloatCls.zero)
  | Operator.GT => decide (diff = FloatCls.pos)
  | Operator.NE => decide (diff ≠ FloatCls.zero)
  | Operator.other _ => false

/-- `HeapFileScan::matchRec`. -/
def matchRec (s : HeapFileScan) (rec : Record) : Bool :=
  match s.filter with
  | none => true
  | some filter =>
    if wrap32 (wrap32 (s.offset + s.length) - 1) ≥ rec.length then false
    else applyOp s.op (computeDiff s filter rec)

/-- `HeapFileScan::startScan`.  `sizeof(int) = sizeof(float) = 4`. -/
def startScan (s : HeapFileScan) (offset_ length_ : Int) (type_ : Datatype)
    (filter_ : Option (List Byte)) (op_ : Operator) : Status × HeapFileScan :=
  match filter_ with
  | none => (Status.OK, { s with filter := none })
  | some f =>
    if (offset_ < 0 ∨ length_ < 1) ∨
       (type_ ≠ Datatype.STRING ∧ type_ ≠ Datatype.INTEGER ∧ type_ ≠ Datatype.FLOAT) ∨
       ((type_ = Datatype.INTEGER ∧ length_ ≠ 4) ∨ (type_ = Datatype.FLOAT ∧ length_ ≠ 4)) ∨
       (op_ ≠ Operator.LT ∧ op_ ≠ Operator.LTE ∧ op_ ≠ Operator.EQ ∧ op_ ≠ Operator.GTE
          ∧ op_ ≠ Operator.GT ∧ op_ ≠ Operator.NE) then
      (Status.BADSCANPARM, s)
    else
      (Status.OK, { s with offset := offset_, length := length_, type := type_,
                           filter := some f, op := op_ })

/-! ## Opening a handle -/

/-- `HeapFile::HeapFile`.  `mem` is the indeterminate content of the object
before construction; the returned status is `returnStatus`.  The header fields
are read through `World.header` whatever the outcome of the header read. -/
def HeapFile.ctor (w : World) (mem : HeapFile) : Status × World × HeapFile :=
  match w.enter Call.openFile with
  | (Status.OK, w1) =>
    let g := w1.enter Call.getFirstPage
    let s1 : HeapFile :=
      if g.1 = Status.OK then { mem with headerPageNo := g.2.firstPageNo } else mem
    let r := g.2.readPage s1.headerPageNo none
    let s2 : HeapFile := { s1 with hdrDirtyFlag := false, curPageNo := r.2.1.header.firstPage }
    let c := r.2.1.readPage s2.curPageNo s2.curPage
    (Status.OK, c.2.1,
      { s2 with curPage := c.2.2, curDirtyFlag := false, curRec := NULLRID })
  | (st, w1) => (st, w1, mem)

/-- `HeapFileScan::HeapFileScan`: the base constructor, then `filter = NULL`. -/
def HeapFileScan.ctor (w : World) (mem : HeapFileScan) : Status × World × HeapFileScan :=
  let r := HeapFile.ctor w mem.toHeapFile
  (r.1, r.2.1, { mem with toHeapFile := r.2.2, filter := none })

/-- `HeapFile::getRecCnt`. -/
def getRecCnt (w : World) : Int := w.header.recCnt

/-! ## Sequential scan -/

/-- How a loop of scanNext ends: the function returned with a status, or the
loop was left with the local `status`. -/
inductive LoopExit where
  | returned (st : Status) (w : World) (s : HeapFileScan)
  | left (st : Status) (w : World) (s : HeapFileScan)

/-- The inner loop of scanNext, `while (status == ENDOFPAGE || status == NORECORDS)`.
`none`: the fuel ran out, or a null page pointer would be dereferenced. -/
def pageLoop : Nat → World → HeapFileScan → Status → Option LoopExit
  | 0, _, _, _ => none
  | fuel + 1, w, s, status =>
    if status = Status.ENDOFPAGE ∨ status = Status.NORECORDS then
      match s.curPage with
      | none => none
      | some p =>
        let nextPageNo := (w.pageAt p).nextPage
        if nextPageNo = -1 then some (LoopExit.returned Status.FILEEOF w s)
        else
          let u := w.unPinPage s.curPageNo s.curDirtyFlag
          let s1 : HeapFileScan := { s with curPage := none, curPageNo := -1 }
          if u.1 ≠ Status.OK then some (LoopExit.returned u.1 u.2 s1)
          else
            let s2 : HeapFileScan := { s1 with curPageNo := nextPageNo, curDirtyFlag := false }
            let r := u.2.readPage s2.curPageNo s2.curPage
            let s3 : HeapFileScan := { s2 with curPage := r.2.2 }
            if r.1 ≠ Status.OK then some (LoopExit.returned r.1 r.2.1 s3)
            else
              match s3.curPage with
              | none => none
              | some q =>
                let f := (r.2.1.pageAt q).firstRecord s3.curRec
                pageLoop fuel r.2.1 { s3 with curRec := f.2 } f.1
    else some (LoopExit.left status w s)

/-- Result of scanNext: the status, the out-parameter `outRid` when it was
assigned, and the states afterwards. -/
structure ScanResult where
  status : Status
  outRid : Option RID
  world : World
  scan : HeapFileScan

/-- The outer loop of scanNext, `while (true)`.  `none` as for `pageLoop`. -/
def recLoop : Nat → World → HeapFileScan → Option ScanResult
  | 0, _, _ => none
  | fuel + 1, w, s =>
    match s.curPage with
    | none => none
    | some p =>
      let n := (w.pageAt p).nextRecord s.curRec s.curRec
      let s1 : HeapFileScan := if n.1 = Status.OK then { s with curRec := n.2 } else s
      match pageLoop fuel w s1 n.1 with
      | none => none
      | some (LoopExit.returned st w2 s2) => some ⟨st, none, w2, s2⟩
      | some (LoopExit.left _ w2 s2) =>
        match s2.curPage with
        | none => none
        | some q =>
          match (w2.pageAt q).getRecord s2.curRec with
          | none => some ⟨Status.INVALIDSLOTNO, none, w2, s2⟩
          | some rec =>
            if matchRec s2 rec = true then some ⟨Status.OK, some s2.curRec, w2, s2⟩
            else recLoop fuel w2 s2

/-- `HeapFileScan::scanNext`.  The uninitialised local `tmpRid` is modelled as
NULLRID.  `none`: the fuel ran out before the loops ended. -/
def scanNext (fuel : Nat) (w : World) (s : HeapFileScan) : Option ScanResult :=
  if s.curPageNo < 0 then some ⟨Status.FILEEOF, none, w, s⟩
  else
    match s.curPage with
    | some _ => recLoop fuel w s
    | none =>
      let s1 : HeapFileScan := { s with curPageNo := w.header.firstPage }
      if s1.curPageNo = -1 then some ⟨Status.FILEEOF, none, w, s1⟩
      else
        let r := w.readPage s1.curPageNo s1.curPage
        let s2 : HeapFileScan :=
          { s1 with curPage := r.2.2, curDirtyFlag := false, curRec := NULLRID }
        if r.1 ≠ Status.OK then some ⟨r.1, none, r.2.1, s2⟩
        else
          match s2.curPage with
          | none => none
          | some p =>
            let f := (r.2.1.pageAt p).firstRecord NULLRID
            let s3 : HeapFileScan := { s2 with curRec := f.2 }
            if f.1 = Status.NORECORDS then
              let u := r.2.1.unPinPage s3.curPageNo s3.curDirtyFlag
              if u.1 ≠ Status.OK then some ⟨u.1, none, u.2, s3⟩
              else some ⟨Status.FILEEOF, none, u.2, { s3 with curPageNo := -1, curPage := none }⟩
            else
              match (r.2.1.pageAt p).getRecord f.2 with
              | none => some ⟨Status.INVALIDSLOTNO, none, r.2.1, s3⟩
              | some rec =>
                if matchRec s3 rec = true then some ⟨Status.OK, some f.2, r.2.1, s3⟩
                else recLoop fuel r.2.1 s3

/-- Repeated scanNext until a call does not return OK: the RIDs returned, the
status that ended the scan, and the states afterwards.  `calls` bounds the
number of scanNext calls, `fuel` is the fuel of each call. -/
def scanAll (fuel : Nat) : Nat → World → HeapFileScan →
    Option (List RID × Status × World × HeapFileScan)
  | 0, _, _ => none
  | calls + 1, w, s =>
    match scanNext fuel w s with
    | none => none
    | some r =>
      match r.status, r.outRid with
      | Status.OK, some rid =>
        (scanAll fuel calls r.world r.scan).map (fun t => (rid :: t.1, t.2))
      | st, _ => some ([], st, r.world, r.scan)

/-! ## Insertion -/

/-- The oversize test of insertRecord, `(unsigned int)rec.length > PAGESIZE - DPFIXED`,
compared as unsigned 32-bit values. -/
def recTooLarge (w : World) (rec : Record) : Bool :=
  decide (toU32 rec.length > toU32 (w.PAGESIZE - w.DPFIXED))

/-- Result of insertRecord: the status, the out-parameter `outRid` when it was
assigned, and the states afterwards. -/
structure InsertResult where
  status : Status
  outRid : Option RID
  world : World
  handle : HeapFile

/-- The body of insertRecord from "add record to current page" on; `p` is the
page `curPage` points to. -/
def insertCur (w : World) (s : HeapFile) (p : Int) (rec : Record) : InsertResult :=
  match w.insertRecord p rec with
  | (Status.OK, w1, rid) =>
    ⟨Status.OK, rid, { w1 with header := { w1.header with recCnt := w1.header.recCnt + 1 } },
      { s with hdrDirtyFlag := true, curDirtyFlag := true }⟩
  | (_, w1, _) =>
    match w1.allocPage with
    | (Status.OK, w2, some newPageNo) =>
      match (w2.initPage newPageNo newPageNo).setNextPage newPageNo (-1) with
      | (Status.OK, w4) =>
        let w5 : World :=
          { w4 with header := { w4.header with lastPage := newPageNo,
                                               pageCnt := w4.header.pageCnt + 1 } }
        let s1 : HeapFile := { s with hdrDirtyFlag := true }
        match w5.setNextPage p newPageNo with
        | (Status.OK, w6) =>
          match w6.unPinPage s1.curPageNo true with
          | (Status.OK, w7) =>
            let s2 : HeapFile := { s1 with curPage := some newPageNo, curPageNo := newPageNo }
            match w7.insertRecord newPageNo rec with
            | (Status.OK, w8, rid) =>
              ⟨Status.OK, rid,
                { w8 with header := { w8.header with recCnt := w8.header.recCnt + 1 } },
                { s2 with curDirtyFlag := true, hdrDirtyFlag := true }⟩
            | (st, w8, _) => ⟨st, none, w8, s2⟩
          | (st, w7) =>
            ⟨st, none, (w7.unPinPage newPageNo true).2,
              { s1 with curPage := none, curPageNo := -1, curDirtyFlag := false }⟩
        | (st, w6) => ⟨st, none, w6, s1⟩
      | (st, w4) => ⟨st, none, w4, s⟩
    | (st, w2, _) => ⟨st, none, w2, s⟩

/-- The step of insertRecord that makes the last page of the file the current
page when no page is pinned (`if (curPage == NULL) ...`); the status is OK when
nothing had to be read. -/
def pinLast (w : World) (s : HeapFile) : Status × World × HeapFile :=
  match s.curPage with
  | some _ => (Status.OK, w, s)
  | none =>
    let s1 : HeapFile := { s with curPageNo := w.header.lastPage }
    let r := w.readPage s1.curPageNo s1.curPage
    (r.1, r.2.1, { s1 with curPage := r.2.2 })

/-- `InsertFileScan::insertRecord`.  After a successful `pinLast` the page
pointer is never null, so the last case only covers a failed read. -/
def insertRecord (w : World) (s : HeapFile) (rec : Record) : InsertResult :=
  if recTooLarge w rec = true then ⟨Status.INVALIDRECLEN, none, w, s⟩
  else
    match (pinLast w s).1, (pinLast w s).2.2.curPage with
    | Status.OK, some p => insertCur (pinLast w s).2.1 (pinLast w s).2.2 p rec
    | st, _ => ⟨st, none, (pinLast w s).2.1, (pinLast w s).2.2⟩

/-! ## Random access, scan control, deletion and teardown -/

/-- `curPage->deleteRecord(rid)` on the page in frame `p`; the failure status is
INVALIDSLOTNO. -/
def World.deleteRecord (w : World) (p : Int) (rid : RID) : Status × World :=
  match (w.pageAt p).deleteRecord rid with
  | some pg => (Status.OK, ({ w with log := w.log ++ [Call.deleteRecord p rid] }).setPage p pg)
  | none => (Status.INVALIDSLOTNO, { w with log := w.log ++ [Call.deleteRecord p rid] })

/-- Result of getRecord: the status, the record of the out-parameter `rec` when
it was assigned, and the states afterwards. -/
structure GetResult where
  status : Status
  record : Option Record
  world : World
  handle : HeapFile

/-- The part of `HeapFile::getRecord` from `curPageNo = rid.pageNo` on: read
the page of `rid` and get the record.  After a successful read the page pointer
is never null, so the last case only covers a failed read. -/
def getRecordRead (w : World) (s : HeapFile) (rid : RID) : GetResult :=
  match w.readPage rid.pageNo s.curPage with
  | (Status.OK, w1, some q) =>
    match (w1.pageAt q).getRecord rid with
    | some rec =>
      ⟨Status.OK, some rec, w1,
        { s with curPageNo := rid.pageNo, curPage := some q, curDirtyFlag := false,
                 curRec := rid }⟩
    | none =>
      ⟨Status.INVALIDSLOTNO, none, w1,
        { s with curPageNo := rid.pageNo, curPage := some q, curDirtyFlag := false }⟩
  | (st, w1, ptr) => ⟨st, none, w1, { s with curPageNo := rid.pageNo, curPage := ptr }⟩

/-- `HeapFile::getRecord(rid, rec)`. -/
def getRecord (w : World) (s : HeapFile) (rid : RID) : GetResult :=
  match s.curPage with
  | some p =>
    if s.curPageNo = rid.pageNo then
      match (w.pageAt p).getRecord rid with
      | some rec => ⟨Status.OK, some rec, w, { s with curRec := rid }⟩
      | none => ⟨Status.INVALIDSLOTNO, none, w, s⟩
    else
      match w.unPinPage s.curPageNo s.curDirtyFlag with
      | (Status.OK, w1) => getRecordRead w1 { s with curPage := none } rid
      | (st, w1) => ⟨st, none, w1, s⟩
  | none => getRecordRead w s rid

/-- `HeapFileScan::endScan`. -/
def endScan (w : World) (s : HeapFileScan) : Status × World × HeapFileScan :=
  match s.curPage with
  | some _ =>
    ((w.unPinPage s.curPageNo s.curDirtyFlag).1, (w.unPinPage s.curPageNo s.curDirtyFlag).2,
      { s with curPage := none, curPageNo := 0, curDirtyFlag := false })
  | none => (Status.OK, w, s)

/-- `HeapFileScan::markScan`. -/
def markScan (s : HeapFileScan) : Status × HeapFileScan :=
  (Status.OK, { s with markedPageNo := s.curPageNo, markedRec := s.curRec })

/-- `HeapFileScan::resetScan`. -/
def resetScan (w : World) (s : HeapFileScan) : Status × World × HeapFileScan :=
  if s.markedPageNo ≠ s.curPageNo then
    match (match s.curPage with
           | some _ => w.unPinPage s.curPageNo s.curDirtyFlag
           | none => (Status.OK, w)) with
    | (Status.OK, w1) =>
      match w1.readPage s.markedPageNo s.curPage with
      | (Status.OK, w2, ptr) =>
        (Status.OK, w2,
          { s with curPageNo := s.markedPageNo, curRec := s.markedRec, curPage := ptr,
                   curDirtyFlag := false })
      | (st, w2, ptr) =>
        (st, w2, { s with curPageNo := s.markedPageNo, curRec := s.markedRec, curPage := ptr })
    | (st, w1) => (st, w1, s)
  else (Status.OK, w, { s with curRec := s.markedRec })

/-- `HeapFileScan::getRecord(rec)`: the record at the cursor.  `none`: a null
page pointer would be dereferenced. -/
def getRecordCur (w : World) (s : HeapFileScan) : Option (Status × Option Record) :=
  match s.curPage with
  | none => none
  | some p =>
    match (w.pageAt p).getRecord s.curRec with
    | some rec => some (Status.OK, some rec)
    | none => some (Status.INVALIDSLOTNO, none)

/-- `HeapFileScan::deleteRecord`.  `none`: a null page pointer would be
dereferenced. -/
def deleteRecord (w : World) (s : HeapFileScan) : Option (Status × World × HeapFileScan) :=
  match s.curPage with
  | none => none
  | some p =>
    some ((w.deleteRecord p s.curRec).1,
      { (w.deleteRecord p s.curRec).2 with
          header := { (w.deleteRecord p s.curRec).2.header with
                        recCnt := (w.deleteRecord p s.curRec).2.header.recCnt - 1 } },
      { s with curDirtyFlag := true, hdrDirtyFlag := true })

/-- `HeapFileScan::markDirty`. -/
def markDirty (s : HeapFileScan) : Status × HeapFileScan :=
  (Status.OK, { s with curDirtyFlag := true })

/-- `HeapFile::~HeapFile`: the statuses of the three calls are only printed. -/
def HeapFile.dtor (w : World) (s : HeapFile) : World × HeapFile :=
  match s.curPage with
  | some _ =>
    ((((w.unPinPage s.curPageNo s.curDirtyFlag).2.unPinPage s.headerPageNo s.hdrDirtyFlag).2.enter
        Call.closeFile).2,
      { s with curPage := none, curPageNo := 0, curDirtyFlag := false })
  | none => (((w.unPinPage s.headerPageNo s.hdrDirtyFlag).2.enter Call.closeFile).2, s)

/-- `HeapFileScan::~HeapFileScan`: endScan, then the base-class destructor. -/
def HeapFileScan.dtor (w : World) (s : HeapFileScan) : World × HeapFileScan :=
  ((HeapFile.dtor (endScan w s).2.1 (endScan w s).2.2.toHeapFile).1,
    { (endScan w s).2.2 with
        toHeapFile := (HeapFile.dtor (endScan w s).2.1 (endScan w s).2.2.toHeapFile).2 })

/-- `InsertFileScan::~InsertFileScan`: unpin the current page as dirty, then
the base-class destructor. -/
def InsertFileScan.dtor (w : World) (s : HeapFile) : World × HeapFile :=
  match s.curPage with
  | some _ =>
    HeapFile.dtor (w.unPinPage s.curPageNo true).2 { s with curPage := none, curPageNo := 0 }
  | none => HeapFile.dtor w s

/-! ## Specification-side definitions and sample data -/

/-- The first `n` bytes at address `buf + o`. -/
def window (buf : List Byte) (o : Int) : Nat → List Byte
  | 0 => []
  | n + 1 => readByte buf o :: window buf (o + 1) n

/-- A scan with the predicate (offset 0, length 4, INTEGER, EQ, literal 5) and no page pinned. -/
def c3Scan : HeapFileScan :=
  { headerPageNo := 0, hdrDirtyFlag := false, curPage := none, curPageNo := 0,
    curDirtyFlag := false, curRec := NULLRID, offset := 0, length := 4,
    type := Datatype.INTEGER, filter := some [5, 0, 0, 0], op := Operator.EQ,
    markedPageNo := 0, markedRec := NULLRID }

/-- The INTEGER predicate at offset 0 with literal -1 and the given operator. -/
def c4Scan (op : Operator) : HeapFileScan :=
  { c3Scan with filter := some [255, 255, 255, 255], op := op }

/-- The C string held in a window: its bytes before the first NUL. -/
def cString : List Byte → List Byte
  | [] => []
  | b :: t => if b = 0 then [] else b :: cString t

/-- Lexicographic three-way comparison of two byte strings, bytes compared as
unsigned values, a proper prefix being smaller. -/
def lexCompare : List Byte → List Byte → Ordering
  | [], [] => Ordering.eq
  | [], _ :: _ => Ordering.lt
  | _ :: _, [] => Ordering.gt
  | a :: as, b :: bs =>
    if a < b then Ordering.lt else if b < a then Ordering.gt else lexCompare as bs

/-- The class of a `float` holding the result of a three-way comparison. -/
def FloatCls.ofOrdering : Ordering → FloatCls
  | Ordering.lt => FloatCls.neg
  | Ordering.eq => FloatCls.zero
  | Ordering.gt => FloatCls.pos

/-- The STRING predicate (offset 0, length 3) whose literal `a\0c` holds a NUL byte. -/
def c5Scan (op : Operator) : HeapFileScan :=
  { c3Scan with offset := 0, length := 3, type := Datatype.STRING,
                filter := some [97, 0, 99], op := op }

/-- The STRING predicate at offset 2147483647 with length 2, as startScan stores it. -/
def c6Scan (op : Operator) : HeapFileScan :=
  { c3Scan with offset := 2147483647, length := 2, type := Datatype.STRING,
                filter := some [0, 0], op := op }

/-- A four-byte record whose first byte is `b`. -/
def exRec (b : Byte) : Record := ⟨[b, 0, 0, 0], 4⟩

/-- Three data pages linked 1 → 2 → 3; page 2 holds no record. -/
def exPages : Int → Option Page := fun k =>
  if k = 1 then some ⟨1, 2, [some (exRec 5), none, some (exRec 7)]⟩
  else if k = 2 then some ⟨2, 3, [none, none]⟩
  else if k = 3 then some ⟨3, -1, [none, some (exRec 9)]⟩
  else none

/-- A file with header page 0 and the data pages 1 → 2 → 3, not yet opened. -/
def exWorld : World :=
  { header := ⟨"f", 3, 3, 1, 3⟩, firstPageNo := 0, pages := exPages, pins := fun _ => 0,
    nextPageNo := 4, PAGESIZE := 1024, DPFIXED := 20, faults := [], log := [] }

/-- An insert handle on `exWorld` whose current page is the last page. -/
def exHandle : HeapFile :=
  { headerPageNo := 0, hdrDirtyFlag := false, curPage := some 3, curPageNo := 3,
    curDirtyFlag := false, curRec := NULLRID }

/-- The file `exWorld` as an open insert handle sees it: header page and page 3 pinned. -/
def exPinned : World := { exWorld with pins := fun k => if k = 0 ∨ k = 3 then 1 else 0 }

/-- Every stored page knows its own number. -/
def PagesWF (w : World) : Prop := ∀ k pg, w.pages k = some pg → pg.pageNo = k

/-- The page pointer of a handle, when set, refers to page `curPageNo`. -/
def Coherent (s : HeapFile) : Prop := ∀ p, s.curPage = some p → p = s.curPageNo

/-- Two scan states hold the same predicate. -/
def SamePred (s t : HeapFileScan) : Prop :=
  s.offset = t.offset ∧ s.length = t.length ∧ s.type = t.type ∧ s.filter = t.filter ∧ s.op = t.op

/-- After a record was found: the pointer refers to the current page and the
cursor lies on it. -/
def OnPage (s : HeapFileScan) : Prop :=
  s.curPage = some s.curPageNo ∧ s.curRec.pageNo = s.curPageNo

/-- RIDs of the live records of page `p`, in physical slot order. -/
def liveRidsOfPage (pages : Int → Option Page) (p : Int) : List RID :=
  (((pages p).getD Page.blank).liveSlots).map (fun (i : Nat) => (⟨p, (i : Int)⟩ : RID))

/-- RIDs of the live records of the pages `ps`, page after page. -/
def chainRids (pages : Int → Option Page) : List Int → List RID
  | [] => []
  | p :: rest => liveRidsOfPage pages p ++ chainRids pages rest

/-- The page chain that starts with link `first` consists of the pages `ps`, in
this order, and ends with the sentinel -1: every page exists, has a
non-negative number, knows its number and links to the next one. -/
def isChain (pages : Int → Option Page) : Int → List Int → Bool
  | first, [] => decide (first = -1)
  | first, p :: rest =>
    match pages p with
    | some pg => decide (first = p) && decide (0 ≤ p) && decide (pg.pageNo = p)
        && isChain pages pg.nextPage rest
    | none => false

/-- Number of live records of the pages `ps`. -/
def liveCount (pages : Int → Option Page) : List Int → Nat
  | [] => 0
  | p :: rest => ((pages p).getD Page.blank).liveSlots.length + liveCount pages rest

/-- First page of `ps` that holds a record, with its first live slot and the
pages after it. -/
def seek (pages : Int → Option Page) : List Int → Option (Int × Nat × List Int)
  | [] => none
  | q :: rest =>
    match ((pages q).getD Page.blank).liveSlots with
    | [] => seek pages rest
    | i :: _ => some (q, i, rest)

/-- An unfiltered scan on a fault-free world stands on page `p` of a chain whose
later pages are `rest`, and holds a pin on it. -/
def Positioned (w : World) (s : HeapFileScan) (p : Int) (rest : List Int) : Prop :=
  w.faults = [] ∧ s.filter = none ∧ s.curPage = some p ∧ s.curPageNo = p ∧ 1 ≤ w.pins p
    ∧ isChain w.pages p (p :: rest) = true

/-- RIDs a scan standing on page `p` with cursor slot `c` has still to return. -/
def remaining (pages : Int → Option Page) (p : Int) (c : Int) (rest : List Int) : List RID :=
  ((((pages p).getD Page.blank).liveSlots).filter (fun (k : Nat) => decide (c < (k : Int)))).map
      (fun (i : Nat) => (⟨p, (i : Int)⟩ : RID))
    ++ chainRids pages rest

/-- The collaborators after a scan handle was opened on `exWorld`. -/
def exOpenWorld : World := (HeapFileScan.ctor exWorld c3Scan).2.1

/-- A freshly opened scan on `exWorld` with the predicate
(offset 0, length 4, INTEGER, GTE, literal 7). -/
def exScan : HeapFileScan :=
  (startScan (HeapFileScan.ctor exWorld c3Scan).2.2 0 4 Datatype.INTEGER (some [7, 0, 0, 0])
    Operator.GTE).2

/-! ## Operation sequences, invariants and further sample data -/

/-- A scan handle and an insert handle open on the same file. -/
structure Sys where
  world : World
  scan : HeapFileScan
  ins : HeapFile

/-- The operations of the exposed surface, on the scan handle or (insertRecord)
on the insert handle. -/
inductive Op where
  | insertRecord (rec : Record)
  | deleteRecord
  | scanNext (fuel : Nat)
  | getRecord (rid : RID)
  | startScan (offset length : Int) (type : Datatype) (filter : Option (List Byte))
      (op : Operator)
  | markScan
  | resetScan
  | endScan
  | markDirty

/-- One operation: its status and the system afterwards.  `none` as for the
operation itself (fuel, null page pointer). -/
def Sys.step (σ : Sys) : Op → Option (Status × Sys)
  | Op.insertRecord rec =>
    some ((insertRecord σ.world σ.ins rec).status,
      { σ with world := (insertRecord σ.world σ.ins rec).world,
               ins := (insertRecord σ.world σ.ins rec).handle })
  | Op.deleteRecord =>
    (deleteRecord σ.world σ.scan).map
      (fun r => (r.1, { σ with world := r.2.1, scan := r.2.2 }))
  | Op.scanNext fuel =>
    (scanNext fuel σ.world σ.scan).map
      (fun r => (r.status, { σ with world := r.world, scan := r.scan }))
  | Op.getRecord rid =>
    some ((getRecord σ.world σ.scan.toHeapFile rid).status,
      { σ with world := (getRecord σ.world σ.scan.toHeapFile rid).world,
               scan := { σ.scan with
                           toHeapFile := (getRecord σ.world σ.scan.toHeapFile rid).handle } })
  | Op.startScan o l t f op =>
    some ((startScan σ.scan o l t f op).1, { σ with scan := (startScan σ.scan o l t f op).2 })
  | Op.markScan => some ((markScan σ.scan).1, { σ with scan := (markScan σ.scan).2 })
  | Op.resetScan =>
    some ((resetScan σ.world σ.scan).1,
      { σ with world := (resetScan σ.world σ.scan).2.1, scan := (resetScan σ.world σ.scan).2.2 })
  | Op.endScan =>
    some ((endScan σ.world σ.scan).1,
      { σ with world := (endScan σ.world σ.scan).2.1, scan := (endScan σ.world σ.scan).2.2 })
  | Op.markDirty => some ((markDirty σ.scan).1, { σ with scan := (markDirty σ.scan).2 })

/-- A sequence of operations: every operation with its status, and the system
afterwards. -/
def Sys.run : Sys → List Op → Option (List (Op × Status) × Sys)
  | σ, [] => some ([], σ)
  | σ, op :: ops =>
    match σ.step op with
    | none => none
    | some (st, σ1) =>
      match Sys.run σ1 ops with
      | none => none
      | some (tr, σ2) => some ((op, st) :: tr, σ2)

/-- Both handles opened on a file, the insert handle first. -/
def Sys.open (w : World) (mem : HeapFileScan) : Sys :=
  { world := (HeapFileScan.ctor (HeapFile.ctor w mem.toHeapFile).2.1 mem).2.1,
    scan := (HeapFileScan.ctor (HeapFile.ctor w mem.toHeapFile).2.1 mem).2.2,
    ins := (HeapFile.ctor w mem.toHeapFile).2.2 }

/-- The file createHeapFile leaves: one empty data page 1, header page 0. -/
def freshWorld : World :=
  { header := ⟨"h", 1, 0, 1, 1⟩, firstPageNo := 0,
    pages := fun k => if k = 1 then some ⟨1, -1, []⟩ else none,
    pins := fun _ => 0, nextPageNo := 2, PAGESIZE := 1024, DPFIXED := 20, faults := [], log := [] }

/-- A file whose first page 1 holds no record and whose second page 2 holds one. -/
def gapWorld : World :=
  { header := ⟨"g", 2, 1, 1, 2⟩, firstPageNo := 0,
    pages := fun k => if k = 1 then some ⟨1, 2, [none]⟩
                      else if k = 2 then some ⟨2, -1, [some (exRec 5)]⟩ else none,
    pins := fun _ => 0, nextPageNo := 3, PAGESIZE := 1024, DPFIXED := 20, faults := [], log := [] }

/-- An insert handle opened on the sample file `exWorld`. -/
def exInsOpen : Status × World × HeapFile := HeapFile.ctor exWorld exHandle

/-- The sample file with a script that lets the first nine fallible calls
succeed and the tenth fail. -/
def exFailingWorld : World :=
  { exWorld with faults := List.replicate 9 Status.OK ++ [Status.other 9] }

/-- A scan on `exFailingWorld`: three records read, the scan marked after the
first, then resetScan, whose read of the marked page fails. -/
def exFailedReset : Option (List (Op × Status) × Sys) :=
  Sys.run ⟨(HeapFileScan.ctor exFailingWorld c3Scan).2.1,
      (HeapFileScan.ctor exFailingWorld c3Scan).2.2, exHandle⟩
    [Op.scanNext 5, Op.markScan, Op.scanNext 5, Op.scanNext 5, Op.resetScan]

/-- One insert, one scan step and two deletes at the same cursor on a fresh
file. -/
def exDoubleDelete : Option (List (Op × Status) × Sys) :=
  Sys.run (Sys.open freshWorld c3Scan)
    [Op.insertRecord (exRec 5), Op.scanNext 5, Op.deleteRecord, Op.deleteRecord]

/-- A scan opened on `gapWorld` and ended with endScan. -/
def exEnded : Status × World × HeapFileScan :=
  endScan (HeapFileScan.ctor gapWorld c3Scan).2.1 (HeapFileScan.ctor gapWorld c3Scan).2.2

/-- The second world differs from the first at most in pins, fault script and
call log. -/
def Static (w w2 : World) : Prop :=
  w2.header = w.header ∧ w2.pages = w.pages ∧ w2.firstPageNo = w.firstPageNo
    ∧ w2.nextPageNo = w.nextPageNo ∧ w2.PAGESIZE = w.PAGESIZE ∧ w2.DPFIXED = w.DPFIXED

/-- The second scan state has the predicate, the mark and the header fields of
the first. -/
def ScanFrame (s s2 : HeapFileScan) : Prop :=
  SamePred s2 s ∧ s2.markedPageNo = s.markedPageNo ∧ s2.markedRec = s.markedRec
    ∧ s2.headerPageNo = s.headerPageNo ∧ s2.hdrDirtyFlag = s.hdrDirtyFlag

/-- The world a loop of scanNext ends with. -/
def LoopExit.world : LoopExit → World
  | LoopExit.returned _ w _ => w
  | LoopExit.left _ w _ => w

/-- The scan state a loop of scanNext ends with. -/
def LoopExit.scan : LoopExit → HeapFileScan
  | LoopExit.returned _ _ s => s
  | LoopExit.left _ _ s => s

/-- The operation is an insertRecord. -/
def Op.isInsert : Op → Bool
  | Op.insertRecord _ => true
  | _ => false

/-- The operation is a deleteRecord. -/
def Op.isDelete : Op → Bool
  | Op.deleteRecord => true
  | _ => false

/-- A scan on the sample file whose current page was marked dirty; getRecord of
a record on page 2 then unpins page 1 and fails to read page 2; endScan follows. -/
def exDirtyEnded : Option (List (Op × Status) × Sys) :=
  Sys.run ⟨(HeapFileScan.ctor
        { exWorld with faults := List.replicate 5 Status.OK ++ [Status.other 3] } c3Scan).2.1,
      (HeapFileScan.ctor
        { exWorld with faults := List.replicate 5 Status.OK ++ [Status.other 3] } c3Scan).2.2,
      exHandle⟩
    [Op.markDirty, Op.getRecord ⟨2, 0⟩, Op.endScan]

/-- The contribution of one operation with its status to the record count: +1
for an insertRecord that returned OK, -1 for a deleteRecord. -/
def Op.delta (x : Op × Status) : Int :=
  (if x.1.isInsert = true ∧ x.2 = Status.OK then 1 else 0) - (if x.1.isDelete = true then 1 else 0)

/-- Two inserts on a fresh file, the second through the overflow path, one scan
step, the delete of the record the scan is on, and a getRecord of the deleted
record, which fails. -/
def exCount : Option (List (Op × Status) × Sys) :=
  Sys.run (Sys.open freshWorld c3Scan)
    [Op.insertRecord (exRec 5), Op.insertRecord ⟨[], 1001⟩, Op.scanNext 5, Op.deleteRecord,
     Op.getRecord ⟨1, 0⟩]

/-- The sample scan `exScan` after one scanNext, which returns (1,2): the scan
is positioned on that record. -/
def exOnRecord : ScanResult :=
  (scanNext 5 exOpenWorld exScan).getD ⟨Status.FILEEOF, none, exOpenWorld, exScan⟩

/-- The file the run `exDoubleDelete` leaves: one data page without live
records, and the header count -1. -/
def exMiscounted : World :=
  (exDoubleDelete.map (fun r => r.2.world)).getD freshWorld

/-- A full scan without predicate, freshly opened on `exMiscounted`. -/
def exMiscountedScan : Option (List RID × Status × World × HeapFileScan) :=
  scanAll 3 2 (HeapFileScan.ctor exMiscounted c3Scan).2.1
    (HeapFileScan.ctor exMiscounted c3Scan).2.2

/-! ## Theorems -/

theorem decodeWord_lt (bs : List Byte) : decodeWord bs < 4294967296 := by
  unfold decodeWord
  have h0 := (bs.getD 0 0).isLt
  have h1 := (bs.getD 1 0).isLt
  have h2 := (bs.getD 2 0).isLt
  have h3 := (bs.getD 3 0).isLt
  omega

theorem decodeInt_range (bs : List Byte) : IsInt32 (decodeInt bs) := by
  have h := decodeWord_lt bs
  unfold IsInt32 decodeInt
  split <;> omega

theorem wrap32_sub_eq_zero (a l : Int) (ha : IsInt32 a) (hl : IsInt32 l) :
    wrap32 (a - l) = 0 ↔ a = l := by
  unfold IsInt32 at ha hl
  unfold wrap32
  omega

theorem wrap32_of_range (x : Int) (h : IsInt32 x) : wrap32 x = x := by
  unfold IsInt32 at h
  unfold wrap32
  omega

theorem readByte_nonneg (buf : List Byte) (i : Nat) : readByte buf (i : Int) = buf.getD i 0 := by
  unfold readByte
  simp

theorem readByte_add (buf : List Byte) (o : Int) (ho : 0 ≤ o) (k : Nat) :
    readByte buf (o + k) = (buf.drop o.toNat).getD k 0 := by
  obtain ⟨n, rfl⟩ := Int.eq_ofNat_of_zero_le ho
  have : ((n : Int) + (k : Int)) = ((n + k : Nat) : Int) := by push_cast; rfl
  rw [this, readByte_nonneg]
  simp [List.getD_eq_getElem?_getD, List.getElem?_drop]

theorem window_length (buf : List Byte) (o : Int) (n : Nat) : (window buf o n).length = n := by
  induction n generalizing o with
  | zero => rfl
  | succ n ih => simp [window, ih]

theorem window_eq_take_drop (buf : List Byte) (o : Int) (ho : 0 ≤ o) (n : Nat)
    (hlen : o + n ≤ buf.length) : window buf o n = (buf.drop o.toNat).take n := by
  induction n generalizing o with
  | zero => simp [window]
  | succ n ih =>
    obtain ⟨m, rfl⟩ := Int.eq_ofNat_of_zero_le ho
    have hm : m < buf.length := by push_cast at hlen; omega
    have h1 := ih ((m : Int) + 1) (by omega) (by push_cast at hlen ⊢; omega)
    have e1 : ((m : Int) + 1).toNat = m + 1 := by omega
    rw [window, h1, e1, readByte_nonneg]
    simp only [Int.toNat_ofNat]
    rw [List.drop_eq_getElem_cons hm, List.take_succ_cons]
    simp [List.getD_eq_getElem?_getD, List.getElem?_eq_getElem hm]

theorem memcpy4_four (buf : List Byte) (o : Int) : memcpy4 buf o 4 = window buf o 4 := by
  simp [memcpy4, window, List.range, List.range.loop, add_assoc]

theorem lengthCheck_passes (o n len : Int) (ho : 0 ≤ o) (hn : 1 ≤ n) (h : o + n ≤ len) :
    ¬ (wrap32 (wrap32 (o + n) - 1) ≥ len) := by
  unfold wrap32
  omega

theorem ofInt_eq_zero (i : Int) : FloatCls.ofInt i = FloatCls.zero ↔ i = 0 := by
  unfold FloatCls.ofInt
  split
  · simp; omega
  · split <;> simp [*]

/-- C3. For an INTEGER predicate of length 4 with a 4-byte literal and a record
that contains the attribute: under EQ matchRec is true exactly when the four
record bytes at the offset decode to the same integer as the literal, under NE
exactly when they decode to different integers. -/
theorem matchRec_integer_eq_ne (s : HeapFileScan) (rec : Record) (lit : List Byte)
    (htype : s.type = Datatype.INTEGER) (hlength : s.length = 4)
    (hfilter : s.filter = some lit) (hlit : lit.length = 4) (hoff : 0 ≤ s.offset)
    (hfits : s.offset + 4 ≤ rec.length) (hdata : rec.length ≤ rec.data.length) :
    (s.op = Operator.EQ →
      (matchRec s rec = true ↔
        decodeInt ((rec.data.drop s.offset.toNat).take 4) = decodeInt lit))
    ∧ (s.op = Operator.NE →
      (matchRec s rec = true ↔
        decodeInt ((rec.data.drop s.offset.toNat).take 4) ≠ decodeInt lit)) := by
  have hw : memcpy4 rec.data s.offset s.length = (rec.data.drop s.offset.toNat).take 4 := by
    rw [hlength, memcpy4_four]
    exact window_eq_take_drop _ _ hoff 4 (by push_cast; omega)
  have hl : memcpy4 lit 0 s.length = lit := by
    rw [hlength, memcpy4_four, window_eq_take_drop _ _ (le_refl 0) 4 (by simp [hlit])]
    simp [← hlit]
  have hchk := lengthCheck_passes s.offset s.length rec.length hoff (by omega) (by omega)
  have hz := wrap32_sub_eq_zero _ _
    (decodeInt_range ((rec.data.drop s.offset.toNat).take 4)) (decodeInt_range lit)
  constructor
  · intro hop
    simp only [matchRec, hfilter, if_neg hchk, computeDiff, htype, hw, hl, hop, applyOp,
      decide_eq_true_eq, ofInt_eq_zero]
    exact hz
  · intro hop
    simp only [matchRec, hfilter, if_neg hchk, computeDiff, htype, hw, hl, hop, applyOp,
      decide_eq_true_eq, ne_eq, ofInt_eq_zero]
    exact not_congr hz

/-- Witness for C3: with offset 0 and literal 5 a record is accepted under EQ
exactly when its first four bytes decode to 5. -/
theorem matchRec_integer_eq_ne_witness :
    (matchRec c3Scan ⟨[5, 0, 0, 0, 9], 5⟩ = true ↔
        decodeInt ((([5, 0, 0, 0, 9] : List Byte).drop 0).take 4) = decodeInt [5, 0, 0, 0])
    ∧ (matchRec c3Scan ⟨[6, 0, 0, 0, 9], 5⟩ = true ↔
        decodeInt ((([6, 0, 0, 0, 9] : List Byte).drop 0).take 4) = decodeInt [5, 0, 0, 0])
    ∧ matchRec c3Scan ⟨[5, 0, 0, 0, 9], 5⟩ = true
    ∧ matchRec c3Scan ⟨[6, 0, 0, 0, 9], 5⟩ = false :=
  ⟨(matchRec_integer_eq_ne c3Scan ⟨[5, 0, 0, 0, 9], 5⟩ [5, 0, 0, 0] rfl rfl rfl rfl
      (by decide) (by decide) (by decide)).1 rfl,
   (matchRec_integer_eq_ne c3Scan ⟨[6, 0, 0, 0, 9], 5⟩ [5, 0, 0, 0] rfl rfl rfl rfl
      (by decide) (by decide) (by decide)).1 rfl,
   by decide, by decide⟩

/-- C4, evaluation at the failing input: attribute 2147483647, literal -1.  The
attribute is greater than the literal, yet matchRec rejects it under GT and GTE
and accepts it under LT and LTE, because `iattr - ifltr` leaves the `int` range. -/
theorem matchRec_integer_order_overflow :
    decodeInt [255, 255, 255, 127] = 2147483647
    ∧ decodeInt [255, 255, 255, 255] = -1
    ∧ matchRec (c4Scan Operator.GT) ⟨[255, 255, 255, 127], 4⟩ = false
    ∧ matchRec (c4Scan Operator.GTE) ⟨[255, 255, 255, 127], 4⟩ = false
    ∧ matchRec (c4Scan Operator.LT) ⟨[255, 255, 255, 127], 4⟩ = true
    ∧ matchRec (c4Scan Operator.LTE) ⟨[255, 255, 255, 127], 4⟩ = true := by
  decide

theorem lexCompare_eq_iff (a b : List Byte) : lexCompare a b = Ordering.eq ↔ a = b := by
  induction a generalizing b with
  | nil => cases b <;> simp [lexCompare]
  | cons x xs ih =>
    cases b with
    | nil => simp [lexCompare]
    | cons y ys =>
      simp only [lexCompare]
      by_cases h1 : x < y
      · simp [h1]; intro h; exact absurd h (ne_of_lt h1)
      · by_cases h2 : y < x
        · simp [h1, h2]; intro h; exact absurd h.symm (ne_of_lt h2)
        · have : x = y := le_antisymm (not_lt.mp h2) (not_lt.mp h1)
          simp [h1, h2, ih, this]

theorem strncmp_spec (s1 : List Byte) (o1 : Int) (s2 : List Byte) (o2 : Int) (n : Nat) :
    FloatCls.ofInt (strncmp s1 o1 s2 o2 n) =
      FloatCls.ofOrdering (lexCompare (cString (window s1 o1 n)) (cString (window s2 o2 n))) := by
  induction n generalizing o1 o2 with
  | zero => simp [strncmp, window, cString, lexCompare, FloatCls.ofInt, FloatCls.ofOrdering]
  | succ n ih =>
    simp only [strncmp, window, cString]
    by_cases hne : readByte s1 o1 = readByte s2 o2
    · by_cases h0 : readByte s1 o1 = 0
      · have h0b : readByte s2 o2 = 0 := hne ▸ h0
        simp [hne, h0b, lexCompare, FloatCls.ofInt, FloatCls.ofOrdering]
      · have h0b : ¬ readByte s2 o2 = 0 := hne ▸ h0
        rw [if_neg (not_not.mpr hne), if_neg h0, if_neg h0, if_neg h0b, ih]
        simp [lexCompare, hne]
    · rw [if_pos hne]
      have hv : (readByte s1 o1).val ≠ (readByte s2 o2).val := fun h => hne (Fin.ext h)
      by_cases h1 : readByte s1 o1 = 0
      · have h2 : ¬ readByte s2 o2 = 0 := fun h => hne (h1.trans h.symm)
        have : 0 < (readByte s2 o2).val := by
          rcases Nat.eq_zero_or_pos (readByte s2 o2).val with h | h
          · exact absurd (Fin.ext h) h2
          · exact h
        have ha : (readByte s1 o1).val = 0 := by rw [h1]; rfl
        simp only [if_pos h1, if_neg h2, lexCompare, FloatCls.ofOrdering, FloatCls.ofInt]
        rw [if_pos (by omega)]
      · by_cases h2 : readByte s2 o2 = 0
        · have : 0 < (readByte s1 o1).val := by
            rcases Nat.eq_zero_or_pos (readByte s1 o1).val with h | h
            · exact absurd (Fin.ext h) h1
            · exact h
          have hb : (readByte s2 o2).val = 0 := by rw [h2]; rfl
          simp only [if_pos h2, if_neg h1, lexCompare, FloatCls.ofOrdering, FloatCls.ofInt]
          rw [if_neg (by omega), if_neg (by omega)]
        · simp only [if_neg h1, if_neg h2, lexCompare]
          by_cases hlt : readByte s1 o1 < readByte s2 o2
          · have : (readByte s1 o1).val < (readByte s2 o2).val := hlt
            simp only [if_pos hlt, FloatCls.ofOrdering, FloatCls.ofInt]
            rw [if_pos (by omega)]
          · have hgt : readByte s2 o2 < readByte s1 o1 :=
              lt_of_le_of_ne (not_lt.mp hlt) (fun h => hne h.symm)
            have : (readByte s2 o2).val < (readByte s1 o1).val := hgt
            simp only [if_neg hlt, if_pos hgt, FloatCls.ofOrdering, FloatCls.ofInt]
            rw [if_neg (by omega), if_neg (by omega)]

theorem cString_of_no_nul (l : List Byte) (h : (0 : Byte) ∉ l) : cString l = l := by
  induction l with
  | nil => rfl
  | cons x xs ih =>
    simp only [List.mem_cons, not_or] at h
    simp [cString, ih h.2, Ne.symm h.1]

theorem cString_length_le (l : List Byte) : (cString l).length ≤ l.length := by
  induction l with
  | nil => simp [cString]
  | cons x xs ih =>
    simp only [cString]
    split
    · simp
    · simp; omega

theorem cString_eq_self_of_length (l : List Byte) (h : (cString l).length = l.length) :
    cString l = l := by
  induction l with
  | nil => rfl
  | cons x xs ih =>
    simp only [cString] at h ⊢
    split at h
    · simp at h
    · rename_i hx
      simp only [List.length_cons, add_left_inj] at h
      simp [hx, ih h]

/-- C7. With a non-null literal startScan returns BADSCANPARM, changing nothing,
exactly when offset < 0, or length < 1, or the type is none of STRING, INTEGER,
FLOAT, or the type is INTEGER or FLOAT with length other than 4, or the operator
is none of LT, LTE, EQ, GTE, GT, NE; otherwise it returns OK and stores exactly
the given offset, length, type, literal and operator. -/
theorem startScan_validation (s : HeapFileScan) (offset_ length_ : Int) (type_ : Datatype)
    (f : List Byte) (op_ : Operator) :
    startScan s offset_ length_ type_ (some f) op_ =
      if offset_ < 0 ∨ length_ < 1
          ∨ ¬ (type_ = Datatype.STRING ∨ type_ = Datatype.INTEGER ∨ type_ = Datatype.FLOAT)
          ∨ (type_ = Datatype.INTEGER ∧ length_ ≠ 4)
          ∨ (type_ = Datatype.FLOAT ∧ length_ ≠ 4)
          ∨ ¬ (op_ = Operator.LT ∨ op_ = Operator.LTE ∨ op_ = Operator.EQ
                ∨ op_ = Operator.GTE ∨ op_ = Operator.GT ∨ op_ = Operator.NE)
      then (Status.BADSCANPARM, s)
      else (Status.OK, { s with offset := offset_, length := length_, type := type_,
                                filter := some f, op := op_ }) := by
  unfold startScan
  simp only []
  congr 1
  apply propext
  constructor
  · rintro ((h | h) | h | (h | h) | h)
    · exact Or.inl h
    · exact Or.inr (Or.inl h)
    · right; right; left; tauto
    · right; right; right; left; exact h
    · right; right; right; right; left; exact h
    · right; right; right; right; right; tauto
  · rintro (h | h | h | h | h | h)
    · exact Or.inl (Or.inl h)
    · exact Or.inl (Or.inr h)
    · right; left; tauto
    · right; right; left; left; exact h
    · right; right; left; right; exact h
    · right; right; right; tauto

/-- C8. With a null literal startScan returns OK whatever the other arguments
and whatever predicate was stored before, and afterwards matchRec is true for
every record. -/
theorem startScan_null_disables (s : HeapFileScan) (offset_ length_ : Int) (type_ : Datatype)
    (op_ : Operator) (rec : Record) :
    (startScan s offset_ length_ type_ none op_).1 = Status.OK
      ∧ (startScan s offset_ length_ type_ none op_).2.filter = none
      ∧ matchRec (startScan s offset_ length_ type_ none op_).2 rec = true := by
  simp [startScan, matchRec]

theorem ofOrdering_eq_zero (c : Ordering) : FloatCls.ofOrdering c = FloatCls.zero ↔ c = Ordering.eq := by
  cases c <;> simp [FloatCls.ofOrdering]

/-- C5 as amended.  For a STRING predicate with offset `o` and length `n`, a
record of length at least `o + n` and a literal of at least `n` bytes, matchRec
applies the operator to the lexicographic comparison of the two `n`-byte windows
each cut at its first NUL byte (the comparison `strncmp` makes); nothing outside
the windows is read.  EQ holds exactly when the two cut windows are equal, and
when the record window holds no NUL byte exactly when the windows are
byte-identical. -/
theorem matchRec_string_window (s : HeapFileScan) (rec : Record) (lit : List Byte)
    (htype : s.type = Datatype.STRING) (hfilter : s.filter = some lit)
    (hoff : 0 ≤ s.offset) (hlength : 1 ≤ s.length)
    (hfits : s.offset + s.length ≤ rec.length) (hdata : rec.length ≤ rec.data.length)
    (hlit : s.length ≤ lit.length) :
    matchRec s rec = applyOp s.op (FloatCls.ofOrdering (lexCompare
        (cString ((rec.data.drop s.offset.toNat).take s.length.toNat))
        (cString (lit.take s.length.toNat))))
    ∧ (s.op = Operator.EQ →
        (matchRec s rec = true ↔
          cString ((rec.data.drop s.offset.toNat).take s.length.toNat)
            = cString (lit.take s.length.toNat)))
    ∧ (s.op = Operator.EQ → (0 : Byte) ∉ (rec.data.drop s.offset.toNat).take s.length.toNat →
        (matchRec s rec = true ↔
          (rec.data.drop s.offset.toNat).take s.length.toNat = lit.take s.length.toNat)) := by
  have hn : ((s.length.toNat : Nat) : Int) = s.length := Int.toNat_of_nonneg (by omega)
  have hw : window rec.data s.offset s.length.toNat
      = (rec.data.drop s.offset.toNat).take s.length.toNat :=
    window_eq_take_drop _ _ hoff _ (by omega)
  have hl : window lit 0 s.length.toNat = lit.take s.length.toNat := by
    rw [window_eq_take_drop _ _ (le_refl 0) _ (by omega)]
    simp
  have hchk := lengthCheck_passes s.offset s.length rec.length hoff hlength hfits
  have main : matchRec s rec = applyOp s.op (FloatCls.ofOrdering (lexCompare
        (cString ((rec.data.drop s.offset.toNat).take s.length.toNat))
        (cString (lit.take s.length.toNat)))) := by
    simp only [matchRec, hfilter, if_neg hchk, computeDiff, htype, strncmp_spec, hw, hl]
  have heq : s.op = Operator.EQ →
        (matchRec s rec = true ↔
          cString ((rec.data.drop s.offset.toNat).take s.length.toNat)
            = cString (lit.take s.length.toNat)) := by
    intro hop
    rw [main, hop]
    simp only [applyOp, decide_eq_true_eq, ofOrdering_eq_zero, lexCompare_eq_iff]
  refine ⟨main, heq, ?_⟩
  intro hop hnul
  rw [heq hop, cString_of_no_nul _ hnul]
  have hlen1 : ((rec.data.drop s.offset.toNat).take s.length.toNat).length = s.length.toNat := by
    rw [← hw, window_length]
  have hlen2 : (lit.take s.length.toNat).length = s.length.toNat := by
    rw [← hl, window_length]
  constructor
  · intro h
    have : (cString (lit.take s.length.toNat)).length = (lit.take s.length.toNat).length := by
      rw [← h, hlen1, hlen2]
    rw [h]
    exact cString_eq_self_of_length _ this
  · intro h
    rw [← h, cString_of_no_nul _ hnul]

/-- Witness for C5 as amended: the window `abb` is greater than the literal
window `a\0c`, whose C string is `a`. -/
theorem matchRec_string_window_witness :
    matchRec (c5Scan Operator.GT) ⟨[97, 98, 98], 3⟩ = true
    ∧ matchRec (c5Scan Operator.GT) ⟨[97, 98, 98], 3⟩
      = applyOp Operator.GT (FloatCls.ofOrdering (lexCompare
        (cString ((([97, 98, 98] : List Byte).drop 0).take 3))
        (cString (([97, 0, 99] : List Byte).take 3)))) :=
  ⟨by decide,
   (matchRec_string_window (c5Scan Operator.GT) ⟨[97, 98, 98], 3⟩ [97, 0, 99] rfl rfl
      (by decide) (by decide) (by decide) (by decide) (by decide)).1⟩

/-- Counterexample to C5 as stated: the windows `a\0b` and `a\0c` differ in their
third byte and compare as less, yet matchRec accepts the record under EQ and
rejects it under LT; the bytes after the NUL are not compared. -/
theorem matchRec_string_stops_at_nul :
    matchRec (c5Scan Operator.EQ) ⟨[97, 0, 98], 3⟩ = true
    ∧ (([97, 0, 98] : List Byte).drop 0).take 3 ≠ ([97, 0, 99] : List Byte).take 3
    ∧ lexCompare ((([97, 0, 98] : List Byte).drop 0).take 3) (([97, 0, 99] : List Byte).take 3)
        = Ordering.lt
    ∧ matchRec (c5Scan Operator.LT) ⟨[97, 0, 98], 3⟩ = false := by
  decide

/-- C6, evaluation at the failing input: startScan accepts offset 2147483647 with
length 2; `offset + length - 1` then leaves the `int` range, the length test
does not reject a 3-byte record, and matchRec returns true under EQ. -/
theorem matchRec_length_check_overflow :
    (startScan c3Scan 2147483647 2 Datatype.STRING (some [0, 0]) Operator.EQ)
        = (Status.OK, c6Scan Operator.EQ)
    ∧ (c6Scan Operator.EQ).offset + (c6Scan Operator.EQ).length > (⟨[1, 2, 3], 3⟩ : Record).length
    ∧ matchRec (c6Scan Operator.EQ) ⟨[1, 2, 3], 3⟩ = true := by
  decide

/-- Without overflow of `offset + length` the length test of matchRec rejects
exactly the records shorter than `offset + length`. -/
theorem matchRec_length_check_in_range (s : HeapFileScan) (rec : Record) (lit : List Byte)
    (hfilter : s.filter = some lit) (hoff : 0 ≤ s.offset) (hlength : 1 ≤ s.length)
    (hsum : s.offset + s.length ≤ 2147483647) :
    (s.offset + s.length > rec.length → matchRec s rec = false)
    ∧ (s.offset + s.length ≤ rec.length →
        matchRec s rec = applyOp s.op (computeDiff s lit rec)) := by
  constructor
  · intro h
    have : wrap32 (wrap32 (s.offset + s.length) - 1) ≥ rec.length := by
      unfold wrap32
      omega
    simp [matchRec, hfilter, this]
  · intro h
    have := lengthCheck_passes s.offset s.length rec.length hoff hlength h
    simp only [matchRec, hfilter, if_neg this]

/-- Without overflow of `iattr - ifltr` the four order operators of an INTEGER
predicate compare the decoded attribute with the decoded literal. -/
theorem matchRec_integer_order_in_range (s : HeapFileScan) (rec : Record) (lit : List Byte)
    (htype : s.type = Datatype.INTEGER) (hlength : s.length = 4)
    (hfilter : s.filter = some lit) (hlit : lit.length = 4) (hoff : 0 ≤ s.offset)
    (hfits : s.offset + 4 ≤ rec.length) (hdata : rec.length ≤ rec.data.length)
    (hdiff : IsInt32 (decodeInt ((rec.data.drop s.offset.toNat).take 4) - decodeInt lit)) :
    (s.op = Operator.LT → (matchRec s rec = true ↔
        decodeInt ((rec.data.drop s.offset.toNat).take 4) < decodeInt lit))
    ∧ (s.op = Operator.LTE → (matchRec s rec = true ↔
        decodeInt ((rec.data.drop s.offset.toNat).take 4) ≤ decodeInt lit))
    ∧ (s.op = Operator.GTE → (matchRec s rec = true ↔
        decodeInt ((rec.data.drop s.offset.toNat).take 4) ≥ decodeInt lit))
    ∧ (s.op = Operator.GT → (matchRec s rec = true ↔
        decodeInt ((rec.data.drop s.offset.toNat).take 4) > decodeInt lit)) := by
  have hw : memcpy4 rec.data s.offset s.length = (rec.data.drop s.offset.toNat).take 4 := by
    rw [hlength, memcpy4_four]
    exact window_eq_take_drop _ _ hoff 4 (by push_cast; omega)
  have hl : memcpy4 lit 0 s.length = lit := by
    rw [hlength, memcpy4_four, window_eq_take_drop _ _ (le_refl 0) 4 (by simp [hlit])]
    simp [← hlit]
  have hchk := lengthCheck_passes s.offset s.length rec.length hoff (by omega) (by omega)
  have hwr := wrap32_of_range _ hdiff
  refine ⟨?_, ?_, ?_, ?_⟩ <;> intro hop <;>
    simp only [matchRec, hfilter, if_neg hchk, computeDiff, htype, hw, hl, hop, applyOp,
      decide_eq_true_eq, hwr, FloatCls.ofInt] <;>
    constructor <;> intro h <;> split_ifs at * <;> simp_all <;> omega

theorem enter_spec (w : World) (c : Call) :
    ∃ fs, (w.enter c).2 = { w with log := w.log ++ [c], faults := fs } := by
  unfold World.enter
  split
  · rename_i h; exact ⟨[], by simp [h]⟩
  · rename_i f fs h; exact ⟨fs, rfl⟩

theorem readPage_spec (w : World) (pageNo : Int) (ptr : Option Int) :
    ∃ fs, ((w.readPage pageNo ptr).1 = Status.OK ∧ (w.readPage pageNo ptr).2.2 = some pageNo
        ∧ (w.readPage pageNo ptr).2.1 =
            { w with log := w.log ++ [Call.readPage pageNo], faults := fs,
                     pins := fun k => if k = pageNo then w.pins k + 1 else w.pins k })
      ∨ ((w.readPage pageNo ptr).1 ≠ Status.OK ∧ (w.readPage pageNo ptr).2.2 = ptr
        ∧ (w.readPage pageNo ptr).2.1 =
            { w with log := w.log ++ [Call.readPage pageNo], faults := fs }) := by
  obtain ⟨fs, hfs⟩ := enter_spec w (Call.readPage pageNo)
  refine ⟨fs, ?_⟩
  unfold World.readPage
  split
  · rename_i w1 h
    have hw1 : w1 = (w.enter (Call.readPage pageNo)).2 := by rw [h]
    rw [hfs] at hw1
    subst hw1
    split
    · left; exact ⟨rfl, rfl, rfl⟩
    · right; exact ⟨by simp, rfl, rfl⟩
  · rename_i st w1 hne h
    have hw1 : w1 = (w.enter (Call.readPage pageNo)).2 := by rw [h]
    rw [hfs] at hw1
    subst hw1
    right
    refine ⟨?_, rfl, rfl⟩
    intro hst
    simp only at hst
    subst hst
    exact hne rfl

theorem enter_log (w : World) (c : Call) : (w.enter c).2.log = w.log ++ [c] := by
  obtain ⟨fs, h⟩ := enter_spec w c
  rw [h]

theorem readPage_log (w : World) (pageNo : Int) (ptr : Option Int) :
    (w.readPage pageNo ptr).2.1.log = w.log ++ [Call.readPage pageNo] := by
  obtain ⟨fs, h | h⟩ := readPage_spec w pageNo ptr <;> rw [h.2.2]

theorem readPage_ok_ptr (w : World) (pageNo : Int) (ptr : Option Int)
    (h : (w.readPage pageNo ptr).1 = Status.OK) : (w.readPage pageNo ptr).2.2 = some pageNo := by
  obtain ⟨fs, h1 | h1⟩ := readPage_spec w pageNo ptr
  · exact h1.2.1
  · exact absurd h h1.1

theorem unPinPage_ok {w w2 : World} {pageNo : Int} {dirty : Bool}
    (h : w.unPinPage pageNo dirty = (Status.OK, w2)) :
    ∃ fs, w2 = { w with log := w.log ++ [Call.unPinPage pageNo dirty], faults := fs,
                        pins := fun k => if k = pageNo then w.pins k - 1 else w.pins k } := by
  obtain ⟨fs, hfs⟩ := enter_spec w (Call.unPinPage pageNo dirty)
  refine ⟨fs, ?_⟩
  unfold World.unPinPage at h
  split at h
  · rename_i w1 he
    have hw1 : w1 = (w.enter (Call.unPinPage pageNo dirty)).2 := by rw [he]
    rw [hfs] at hw1
    subst hw1
    split at h
    · simp at h
    · simp only [Prod.mk.injEq, true_and] at h
      exact h.symm
  · rename_i st w1 hne he
    simp only [Prod.mk.injEq] at h
    exact absurd h.1 hne

theorem unPinPage_log (w : World) (pageNo : Int) (dirty : Bool) :
    (w.unPinPage pageNo dirty).2.log = w.log ++ [Call.unPinPage pageNo dirty] := by
  unfold World.unPinPage
  split
  · rename_i w1 he
    have hw1 : w1 = (w.enter (Call.unPinPage pageNo dirty)).2 := by rw [he]
    split <;> simp [hw1, enter_log]
  · rename_i st w1 hne he
    have hw1 : w1 = (w.enter (Call.unPinPage pageNo dirty)).2 := by rw [he]
    simp [hw1, enter_log]

theorem allocPage_ok {w w2 : World} {x : Option Int} (h : w.allocPage = (Status.OK, w2, x)) :
    ∃ fs, x = some w.nextPageNo ∧
      w2 = { w with log := w.log ++ [Call.allocPage], faults := fs,
                    pages := fun k => if k = w.nextPageNo then some Page.blank else w.pages k,
                    pins := fun k => if k = w.nextPageNo then w.pins k + 1 else w.pins k,
                    nextPageNo := w.nextPageNo + 1 } := by
  obtain ⟨fs, hfs⟩ := enter_spec w Call.allocPage
  refine ⟨fs, ?_⟩
  unfold World.allocPage at h
  split at h
  · rename_i w1 he
    have hw1 : w1 = (w.enter Call.allocPage).2 := by rw [he]
    rw [hfs] at hw1
    subst hw1
    simp only [Prod.mk.injEq, true_and] at h
    exact ⟨h.2.symm, h.1.symm⟩
  · rename_i st w1 hne he
    simp only [Prod.mk.injEq] at h
    exact absurd h.1 hne

theorem allocPage_log (w : World) : (w.allocPage).2.1.log = w.log ++ [Call.allocPage] := by
  unfold World.allocPage
  split
  · rename_i w1 he
    have hw1 : w1 = (w.enter Call.allocPage).2 := by rw [he]
    simp [hw1, enter_log]
  · rename_i st w1 hne he
    have hw1 : w1 = (w.enter Call.allocPage).2 := by rw [he]
    simp [hw1, enter_log]

theorem setNextPage_ok {w w2 : World} {p next : Int}
    (h : w.setNextPage p next = (Status.OK, w2)) :
    ∃ fs, w2 = { w with log := w.log ++ [Call.setNextPage p next], faults := fs,
                        pages := fun k => if k = p then some { w.pageAt p with nextPage := next }
                                          else w.pages k } := by
  obtain ⟨fs, hfs⟩ := enter_spec w (Call.setNextPage p next)
  refine ⟨fs, ?_⟩
  unfold World.setNextPage at h
  split at h
  · rename_i w1 he
    have hw1 : w1 = (w.enter (Call.setNextPage p next)).2 := by rw [he]
    rw [hfs] at hw1
    subst hw1
    simp only [Prod.mk.injEq, true_and] at h
    exact h.symm
  · rename_i st w1 hne he
    simp only [Prod.mk.injEq] at h
    exact absurd h.1 hne

theorem setNextPage_log (w : World) (p next : Int) :
    (w.setNextPage p next).2.log = w.log ++ [Call.setNextPage p next] := by
  unfold World.setNextPage
  split
  · rename_i w1 he
    have hw1 : w1 = (w.enter (Call.setNextPage p next)).2 := by rw [he]
    simp [hw1, enter_log, World.setPage]
  · rename_i st w1 hne he
    have hw1 : w1 = (w.enter (Call.setNextPage p next)).2 := by rw [he]
    simp [hw1, enter_log]

theorem insertRecord_log (w : World) (p : Int) (rec : Record) :
    (w.insertRecord p rec).2.1.log = w.log ++ [Call.insertRecord p rec] := by
  unfold World.insertRecord
  split <;> simp [World.setPage]

theorem initPage_log (w : World) (p n : Int) :
    (w.initPage p n).log = w.log ++ [Call.init p n] := by
  simp [World.initPage, World.setPage]

theorem insertCur_log (w : World) (s : HeapFile) (p : Int) (rec : Record) :
    w.log.length < (insertCur w s p rec).world.log.length := by
  unfold insertCur
  split
  · rename_i w1 rid h1
    have e1 : w1.log = w.log ++ [Call.insertRecord p rec] := by
      rw [← insertRecord_log w p rec, h1]
    simp [e1]
  · rename_i st1 w1 rid hne h1
    have e1 : w1.log = w.log ++ [Call.insertRecord p rec] := by
      rw [← insertRecord_log w p rec, h1]
    split
    · rename_i w2 newPageNo h2
      have e2 : w2.log = w1.log ++ [Call.allocPage] := by
        rw [← allocPage_log w1, h2]
      split
      · rename_i w4 h4
        have e4 : w4.log = w2.log ++ [Call.init newPageNo newPageNo]
            ++ [Call.setNextPage newPageNo (-1)] := by
          rw [← initPage_log, ← setNextPage_log, h4]
        dsimp only
        split
        · rename_i w6 h6
          have e6 : w6.log = w4.log ++ [Call.setNextPage p newPageNo] := by
            have := setNextPage_log
              { w4 with header := { w4.header with lastPage := newPageNo,
                                                   pageCnt := w4.header.pageCnt + 1 } } p newPageNo
            rw [h6] at this
            exact this
          split
          · rename_i w7 h7
            have e7 := unPinPage_log w6 s.curPageNo true
            simp only [h7] at e7
            split
            · rename_i w8 rid8 h8
              have e8 := insertRecord_log w7 newPageNo rec
              rw [h8] at e8
              simp only at e8
              simp [e8, e7, e6, e4, e2, e1]
            · rename_i st8 w8 rid8 hne8 h8
              have e8 := insertRecord_log w7 newPageNo rec
              rw [h8] at e8
              simp only at e8
              simp [e8, e7, e6, e4, e2, e1]
          · rename_i st7 w7 hne7 h7
            have e7 := unPinPage_log w6 s.curPageNo true
            simp only [h7] at e7
            simp [unPinPage_log, e7, e6, e4, e2, e1]
        · rename_i st6 w6 hne6 h6
          have e6 : w6.log = w4.log ++ [Call.setNextPage p newPageNo] := by
            have := setNextPage_log
              { w4 with header := { w4.header with lastPage := newPageNo,
                                                   pageCnt := w4.header.pageCnt + 1 } } p newPageNo
            rw [h6] at this
            exact this
          simp [e6, e4, e2, e1]
      · rename_i st4 w4 hne4 h4
        have e4 : w4.log = w2.log ++ [Call.init newPageNo newPageNo]
            ++ [Call.setNextPage newPageNo (-1)] := by
          rw [← initPage_log, ← setNextPage_log, h4]
        simp [e4, e2, e1]
    · rename_i st2 w2 x2 hne2 h2
      have e2 : w2.log = w1.log ++ [Call.allocPage] := by
        rw [← allocPage_log w1, h2]
      simp [e2, e1]

theorem pinLast_log (w : World) (s : HeapFile) :
    (s.curPage ≠ none ∧ (pinLast w s).2.1 = w)
    ∨ (pinLast w s).2.1.log = w.log ++ [Call.readPage w.header.lastPage] := by
  unfold pinLast
  split
  · left; simp [*]
  · right; simp [readPage_log]

theorem insertRecord_ok_inv {w w2 : World} {p : Int} {rec : Record} {x : Option RID}
    (h : w.insertRecord p rec = (Status.OK, w2, x)) :
    ∃ rid pg, Page.insertRecord (w.PAGESIZE - w.DPFIXED) (w.pageAt p) rec = some (rid, pg)
      ∧ x = some rid
      ∧ w2 = ({ w with log := w.log ++ [Call.insertRecord p rec] }).setPage p pg := by
  unfold World.insertRecord at h
  split at h
  · rename_i rid pg he
    simp only [Prod.mk.injEq, true_and] at h
    exact ⟨rid, pg, he, h.2.symm, h.1.symm⟩
  · simp at h

theorem insertRecord_fail_inv {w w2 : World} {p : Int} {rec : Record} {x : Option RID}
    {st : Status} (h : w.insertRecord p rec = (st, w2, x)) (hst : st ≠ Status.OK) :
    w2 = { w with log := w.log ++ [Call.insertRecord p rec] } := by
  unfold World.insertRecord at h
  split at h
  · simp only [Prod.mk.injEq] at h
    exact absurd h.1.symm hst
  · simp only [Prod.mk.injEq] at h
    exact h.2.1.symm

theorem pinLast_header (w : World) (s : HeapFile) : (pinLast w s).2.1.header = w.header := by
  unfold pinLast
  split
  · rfl
  · dsimp only
    obtain ⟨fs, h | h⟩ := readPage_spec w w.header.lastPage s.curPage <;> rw [h.2.2]

theorem pinLast_consts (w : World) (s : HeapFile) :
    (pinLast w s).2.1.PAGESIZE = w.PAGESIZE ∧ (pinLast w s).2.1.DPFIXED = w.DPFIXED := by
  unfold pinLast
  split
  · exact ⟨rfl, rfl⟩
  · dsimp only
    obtain ⟨fs, h | h⟩ := readPage_spec w w.header.lastPage s.curPage <;> rw [h.2.2] <;>
      exact ⟨rfl, rfl⟩

theorem enter_ok_of_script (w : World) (c : Call) (n : Nat)
    (h : ∀ f ∈ w.faults.take (n + 1), f = Status.OK) :
    ∃ fs, w.enter c = (Status.OK, { w with log := w.log ++ [c], faults := fs })
      ∧ ∀ f ∈ fs.take n, f = Status.OK := by
  unfold World.enter
  split
  · rename_i hnil
    exact ⟨[], by simp [hnil], by simp⟩
  · rename_i f fs hcons
    rw [hcons] at h
    have hf : f = Status.OK := h f (by simp)
    subst hf
    refine ⟨fs, rfl, ?_⟩
    intro g hg
    exact h g (by simp [hg])

theorem allocPage_ok_of_script (w : World) (n : Nat)
    (h : ∀ f ∈ w.faults.take (n + 1), f = Status.OK) :
    ∃ w2, w.allocPage = (Status.OK, w2, some w.nextPageNo)
      ∧ (∀ f ∈ w2.faults.take n, f = Status.OK)
      ∧ w2.PAGESIZE = w.PAGESIZE ∧ w2.DPFIXED = w.DPFIXED ∧ ∀ k, w.pins k ≤ w2.pins k := by
  obtain ⟨fs, he, hfs⟩ := enter_ok_of_script w Call.allocPage n h
  have e : w.allocPage = (Status.OK,
      { w with log := w.log ++ [Call.allocPage], faults := fs,
               pages := fun k => if k = w.nextPageNo then some Page.blank else w.pages k,
               pins := fun k => if k = w.nextPageNo then w.pins k + 1 else w.pins k,
               nextPageNo := w.nextPageNo + 1 },
      some w.nextPageNo) := by
    unfold World.allocPage
    rw [he]
  refine ⟨_, e, hfs, rfl, rfl, ?_⟩
  intro k
  dsimp only
  split <;> omega

theorem setNextPage_ok_of_script (w : World) (p next : Int) (n : Nat)
    (h : ∀ f ∈ w.faults.take (n + 1), f = Status.OK) :
    ∃ w2, w.setNextPage p next = (Status.OK, w2)
      ∧ (∀ f ∈ w2.faults.take n, f = Status.OK)
      ∧ w2.PAGESIZE = w.PAGESIZE ∧ w2.DPFIXED = w.DPFIXED ∧ w2.pins = w.pins
      ∧ ∀ k, (w2.pageAt k).slots = (w.pageAt k).slots := by
  obtain ⟨fs, he, hfs⟩ := enter_ok_of_script w (Call.setNextPage p next) n h
  have e : w.setNextPage p next = (Status.OK,
      ({ w with log := w.log ++ [Call.setNextPage p next], faults := fs }).setPage p
        { w.pageAt p with nextPage := next }) := by
    unfold World.setNextPage
    rw [he]
    rfl
  refine ⟨_, e, hfs, rfl, rfl, rfl, ?_⟩
  intro k
  by_cases hk : k = p
  · subst hk
    simp [World.pageAt, World.setPage]
  · simp [World.pageAt, World.setPage, hk]

theorem unPinPage_ok_of_script (w : World) (p : Int) (d : Bool)
    (h : ∀ f ∈ w.faults.take 1, f = Status.OK) (hpin : 1 ≤ w.pins p) :
    ∃ w2, w.unPinPage p d = (Status.OK, w2)
      ∧ w2.PAGESIZE = w.PAGESIZE ∧ w2.DPFIXED = w.DPFIXED
      ∧ ∀ k, (w2.pageAt k).slots = (w.pageAt k).slots := by
  obtain ⟨fs, he, -⟩ := enter_ok_of_script w (Call.unPinPage p d) 0 h
  have hne : ¬ (w.pins p = 0) := by omega
  have e : w.unPinPage p d = (Status.OK,
      { w with log := w.log ++ [Call.unPinPage p d], faults := fs,
               pins := fun k => if k = p then w.pins k - 1 else w.pins k }) := by
    unfold World.unPinPage
    rw [he]
    simp only [hne, if_false]
  exact ⟨_, e, rfl, rfl, fun _ => rfl⟩

theorem initPage_slots (w : World) (n : Int) : ((w.initPage n n).pageAt n).slots = [] := by
  simp [World.initPage, World.pageAt, World.setPage, Page.init]

theorem insertRecord_on_empty (w : World) (n : Int) (rec : Record)
    (hs : (w.pageAt n).slots = []) (hfit : rec.length ≤ w.PAGESIZE - w.DPFIXED) :
    (w.insertRecord n rec).1 = Status.OK := by
  unfold World.insertRecord Page.insertRecord
  rw [hs]
  simp [usedBytes, hfit]

theorem insertCur_ok_of_success (w : World) (s : HeapFile) (p : Int) (rec : Record)
    (hf : ∀ f ∈ w.faults.take 4, f = Status.OK) (hpin : 1 ≤ w.pins s.curPageNo)
    (hfit : rec.length ≤ w.PAGESIZE - w.DPFIXED) :
    (insertCur w s p rec).status = Status.OK := by
  unfold insertCur
  split
  · rfl
  · rename_i st1 w1 rid1 hne1 h1
    have hw1 := insertRecord_fail_inv h1 (fun h => hne1 h)
    have hf1 : ∀ f ∈ w1.faults.take 4, f = Status.OK := by rw [hw1]; exact hf
    obtain ⟨w2, h2, hf2, hps2, hdp2, hpin2⟩ := allocPage_ok_of_script w1 3 hf1
    rw [h2]
    dsimp only
    obtain ⟨w4, h4, hf4, hps4, hdp4, hpin4, hsl4⟩ :=
      setNextPage_ok_of_script (w2.initPage w1.nextPageNo w1.nextPageNo) w1.nextPageNo (-1) 2 hf2
    rw [h4]
    dsimp only
    obtain ⟨w6, h6, hf6, hps6, hdp6, hpin6, hsl6⟩ :=
      setNextPage_ok_of_script
        { w4 with header := { w4.header with lastPage := w1.nextPageNo,
                                             pageCnt := w4.header.pageCnt + 1 } }
        p w1.nextPageNo 1 hf4
    rw [h6]
    dsimp only
    have hp6 : 1 ≤ w6.pins s.curPageNo := by
      rw [hpin6]
      show 1 ≤ w4.pins s.curPageNo
      rw [hpin4]
      show 1 ≤ w2.pins s.curPageNo
      have := hpin2 s.curPageNo
      rw [hw1] at this
      exact le_trans hpin this
    obtain ⟨w7, h7, hps7, hdp7, hsl7⟩ := unPinPage_ok_of_script w6 s.curPageNo true hf6 hp6
    rw [h7]
    dsimp only
    have hok := insertRecord_on_empty w7 w1.nextPageNo rec
      (by
        rw [hsl7, hsl6]
        show (w4.pageAt w1.nextPageNo).slots = []
        rw [hsl4]
        exact initPage_slots w2 w1.nextPageNo)
      (by
        rw [hps7, hdp7, hps6, hdp6]
        show rec.length ≤ w4.PAGESIZE - w4.DPFIXED
        rw [hps4, hdp4]
        show rec.length ≤ w2.PAGESIZE - w2.DPFIXED
        rw [hps2, hdp2, hw1]
        exact hfit)
    split
    · rfl
    · rename_i st8 w8 x8 hne8 h8
      rw [h8] at hok
      exact absurd hok hne8

/-- C10. Let the current page at the page-level insert be `p` (after the last
page was pinned when no page was).  If that insert fails and the collaborator
calls that follow succeed (the next four scripted outcomes of allocPage, the two
setNextPage calls and unPinPage are OK, the old current page holds a pin to
release, the record fits on an empty page, and the page number handed out is
not `p`), then insertRecord returns OK and exactly one page is allocated:
`pageCnt` grows by 1, `lastPage` is the new page, the new page's next link is
-1, page `p` links to the new page, the old current page is unpinned dirty, the
new page is the current page, the insert is made once more on it, and `recCnt`
grows by 1.  If the first insert succeeds, `pageCnt` and `lastPage` are
unchanged. -/
theorem insertRecord_overflow (w w1 : World) (s s1 : HeapFile) (rec : Record) (p : Int)
    (hsize : recTooLarge w rec = false)
    (hpin : pinLast w s = (Status.OK, w1, s1))
    (hcur : s1.curPage = some p) :
    ((w1.insertRecord p rec).1 ≠ Status.OK →
      (∀ f ∈ w1.faults.take 4, f = Status.OK) →
      1 ≤ w1.pins s1.curPageNo →
      rec.length ≤ w.PAGESIZE - w.DPFIXED →
      w1.nextPageNo ≠ p →
        (insertRecord w s rec).status = Status.OK
        ∧ (insertRecord w s rec).world.header.pageCnt = w.header.pageCnt + 1
        ∧ (insertRecord w s rec).world.header.lastPage = w1.nextPageNo
        ∧ ((insertRecord w s rec).world.pageAt w1.nextPageNo).nextPage = -1
        ∧ ((insertRecord w s rec).world.pageAt p).nextPage = w1.nextPageNo
        ∧ (insertRecord w s rec).world.log = w1.log ++
            [Call.insertRecord p rec, Call.allocPage, Call.init w1.nextPageNo w1.nextPageNo,
             Call.setNextPage w1.nextPageNo (-1), Call.setNextPage p w1.nextPageNo,
             Call.unPinPage s1.curPageNo true, Call.insertRecord w1.nextPageNo rec]
        ∧ (insertRecord w s rec).handle.curPage = some w1.nextPageNo
        ∧ (insertRecord w s rec).handle.curPageNo = w1.nextPageNo
        ∧ (insertRecord w s rec).handle.curDirtyFlag = true
        ∧ (insertRecord w s rec).handle.hdrDirtyFlag = true
        ∧ (insertRecord w s rec).outRid = some ⟨w1.nextPageNo, 0⟩
        ∧ ((insertRecord w s rec).world.pageAt w1.nextPageNo).slots = [some rec]
        ∧ (insertRecord w s rec).world.header.recCnt = w.header.recCnt + 1)
    ∧ ((w1.insertRecord p rec).1 = Status.OK →
        (insertRecord w s rec).status = Status.OK
        ∧ (insertRecord w s rec).world.header.pageCnt = w.header.pageCnt
        ∧ (insertRecord w s rec).world.header.lastPage = w.header.lastPage
        ∧ (insertRecord w s rec).world.header.recCnt = w.header.recCnt + 1
        ∧ (insertRecord w s rec).world.log = w1.log ++ [Call.insertRecord p rec]) := by
  have hhdr : w1.header = w.header := by
    have := pinLast_header w s
    rw [hpin] at this
    exact this
  have hunf : insertRecord w s rec = insertCur w1 s1 p rec := by
    simp only [insertRecord, hsize, hpin, hcur]
    simp
  rw [hunf]
  constructor
  · intro hfull hscript hpin1 hfit hfresh
    have hcons : w1.PAGESIZE = w.PAGESIZE ∧ w1.DPFIXED = w.DPFIXED := by
      have := pinLast_consts w s
      rw [hpin] at this
      exact this
    have hok : (insertCur w1 s1 p rec).status = Status.OK :=
      insertCur_ok_of_success w1 s1 p rec hscript hpin1 (by rw [hcons.1, hcons.2]; exact hfit)
    refine ⟨hok, ?_⟩
    unfold insertCur at hok ⊢
    split at hok
    · rename_i w1a rid h1
      rw [h1] at hfull
      exact absurd rfl hfull
    · rename_i st1 w1a rid1 hne1 h1
      have hw1a := insertRecord_fail_inv h1 hne1
      subst hw1a
      simp only [h1] at hok ⊢
      split at hok
      · rename_i w2 newPageNo h2
        obtain ⟨fs2, hn, hw2⟩ := allocPage_ok h2
        simp only [Option.some.injEq] at hn
        subst hn
        subst hw2
        simp only [h2] at hok ⊢
        split at hok
        · rename_i w4 h4
          obtain ⟨fs4, hw4⟩ := setNextPage_ok h4
          subst hw4
          simp only [h4] at hok ⊢
          split at hok
          · rename_i w6 h6
            obtain ⟨fs6, hw6⟩ := setNextPage_ok h6
            subst hw6
            simp only [h6] at hok ⊢
            split at hok
            · rename_i w7 h7
              obtain ⟨fs7, hw7⟩ := unPinPage_ok h7
              subst hw7
              simp only [h7] at hok ⊢
              split at hok
              · rename_i w8 rid8 h8
                obtain ⟨rid, pg, hins, hrid, hw8⟩ := insertRecord_ok_inv h8
                subst hrid
                subst hw8
                simp only [h8]
                have hne : ¬ (w1.nextPageNo = p) := hfresh
                have hne2 : ¬ (p = w1.nextPageNo) := fun h => hfresh h.symm
                simp [World.pageAt, World.setPage, World.initPage, Page.init, Page.blank,
                  Page.insertRecord, hne, hne2, usedBytes, placeRecord, hhdr] at hins ⊢
                obtain ⟨hfit, hr, hp⟩ := hins
                subst hr
                subst hp
                simp
              · rename_i st8 w8 x8 hne8 h8
                simp only [h8] at hok
                exact absurd hok hne8
            · rename_i st7 w7 hne7 h7
              simp only [h7] at hok
              exact absurd hok hne7
          · rename_i st6 w6 hne6 h6
            simp only [h6] at hok
            exact absurd hok hne6
        · rename_i st4 w4 hne4 h4
          simp only [h4] at hok
          exact absurd hok hne4
      · rename_i st2 w2 x2 hne2 h2
        simp only [h2] at hok
        subst hok
        obtain ⟨fs2, hn, hw2⟩ := allocPage_ok h2
        exact (hne2 _ rfl hn).elim
  · intro hfirst
    unfold insertCur
    split
    · rename_i w1a rid h1
      obtain ⟨rid, pg, hins, hrid, hw8⟩ := insertRecord_ok_inv h1
      subst hw8
      simp [World.setPage, hhdr]
    · rename_i st1 w1a rid1 hne1 h1
      rw [h1] at hfirst
      exact absurd hfirst hne1

/-- C9 as amended.  With a usable capacity `PAGESIZE - DPFIXED` in the `int`
range: a record longer than the capacity, and also one of negative length, makes
insertRecord return INVALIDRECLEN with the collaborators (log included) and the
handle unchanged; a record with 0 ≤ length ≤ capacity passes the test, and the
call goes on to at least one collaborator call. -/
theorem insertRecord_oversize (w : World) (s : HeapFile) (rec : Record)
    (hcap0 : 0 ≤ w.PAGESIZE - w.DPFIXED) (hcap1 : w.PAGESIZE - w.DPFIXED ≤ 2147483647)
    (hlen : IsInt32 rec.length) :
    ((rec.length > w.PAGESIZE - w.DPFIXED ∨ rec.length < 0) →
        insertRecord w s rec = ⟨Status.INVALIDRECLEN, none, w, s⟩)
    ∧ (0 ≤ rec.length → rec.length ≤ w.PAGESIZE - w.DPFIXED →
        recTooLarge w rec = false ∧ w.log.length < (insertRecord w s rec).world.log.length) := by
  unfold IsInt32 at hlen
  constructor
  · intro h
    have : recTooLarge w rec = true := by
      simp only [recTooLarge, toU32, decide_eq_true_eq]
      omega
    simp [insertRecord, this]
  · intro h0 h1
    have hsz : recTooLarge w rec = false := by
      simp only [recTooLarge, toU32, decide_eq_false_iff_not]
      omega
    refine ⟨hsz, ?_⟩
    simp only [insertRecord, hsz]
    cases hc : s.curPage with
    | some p =>
      have hp : pinLast w s = (Status.OK, w, s) := by simp [pinLast, hc]
      simp only [hp, hc]
      exact insertCur_log w s p rec
    | none =>
      have hl : (pinLast w s).2.1.log = w.log ++ [Call.readPage w.header.lastPage] := by
        rcases pinLast_log w s with h | h
        · exact absurd hc h.1
        · exact h
      simp only [Bool.false_eq_true, if_false]
      split
      · rename_i q _ _
        have := insertCur_log (pinLast w s).2.1 (pinLast w s).2.2 q rec
        rw [hl] at this
        simp at this
        omega
      · simp [hl]

/-- Witness for C9 as amended: with capacity 1004 a record of 1005 bytes is
rejected without any effect, one of 1004 bytes passes the test. -/
theorem insertRecord_oversize_witness :
    insertRecord exPinned exHandle ⟨[], 1005⟩ = ⟨Status.INVALIDRECLEN, none, exPinned, exHandle⟩
    ∧ recTooLarge exPinned ⟨[], 1004⟩ = false
    ∧ exPinned.log.length < (insertRecord exPinned exHandle ⟨[], 1004⟩).world.log.length :=
  ⟨(insertRecord_oversize exPinned exHandle ⟨[], 1005⟩ (by decide) (by decide) (by decide)).1
      (Or.inl (by decide)),
   (insertRecord_oversize exPinned exHandle ⟨[], 1004⟩ (by decide) (by decide) (by decide)).2
      (by decide) (by decide)⟩

/-- Counterexample to C9 as stated: a record of length -1 is not longer than the
capacity 1004, yet the unsigned comparison rejects it with INVALIDRECLEN. -/
theorem insertRecord_negative_length_rejected :
    (⟨[], -1⟩ : Record).length ≤ exPinned.PAGESIZE - exPinned.DPFIXED
    ∧ recTooLarge exPinned ⟨[], -1⟩ = true
    ∧ (insertRecord exPinned exHandle ⟨[], -1⟩).status = Status.INVALIDRECLEN := by
  decide

/-- Witness for C10: inserting 1001 bytes into the sample file, whose last page
has no room, returns OK and appends page 4; inserting 4 bytes leaves the page
count at 3. -/
theorem insertRecord_overflow_witness :
    (insertRecord exPinned exHandle ⟨[], 1001⟩).status = Status.OK
    ∧ (insertRecord exPinned exHandle ⟨[], 1001⟩).world.header.pageCnt = 4
    ∧ (insertRecord exPinned exHandle ⟨[], 1001⟩).world.header.lastPage = 4
    ∧ ((insertRecord exPinned exHandle ⟨[], 1001⟩).world.pageAt 4).nextPage = -1
    ∧ ((insertRecord exPinned exHandle ⟨[], 1001⟩).world.pageAt 3).nextPage = 4
    ∧ (insertRecord exPinned exHandle ⟨[], 1001⟩).handle.curPageNo = 4
    ∧ (insertRecord exPinned exHandle ⟨[], 1001⟩).world.header.recCnt = 4
    ∧ (insertRecord exPinned exHandle (exRec 1)).world.header.pageCnt = 3 := by
  have h := (insertRecord_overflow exPinned exPinned exHandle exHandle ⟨[], 1001⟩ 3
    (by decide) rfl rfl).1 (by decide) (by decide) (by decide) (by decide) (by decide)
  have h2 := (insertRecord_overflow exPinned exPinned exHandle exHandle (exRec 1) 3
    (by decide) rfl rfl).2 (by decide)
  exact ⟨h.1, h.2.1, h.2.2.1, h.2.2.2.1, h.2.2.2.2.1, h.2.2.2.2.2.2.2.1,
    h.2.2.2.2.2.2.2.2.2.2.2.2, h2.2.1⟩

theorem matchRec_congr {s t : HeapFileScan} (h : SamePred s t) (rec : Record) :
    matchRec s rec = matchRec t rec := by
  obtain ⟨h1, h2, h3, h4, h5⟩ := h
  simp [matchRec, computeDiff, h1, h2, h3, h4, h5]

theorem readPage_pages (w : World) (pageNo : Int) (ptr : Option Int) :
    (w.readPage pageNo ptr).2.1.pages = w.pages := by
  obtain ⟨fs, h | h⟩ := readPage_spec w pageNo ptr <;> rw [h.2.2]

theorem unPinPage_pages (w : World) (pageNo : Int) (dirty : Bool) :
    (w.unPinPage pageNo dirty).2.pages = w.pages := by
  obtain ⟨fs, hfs⟩ := enter_spec w (Call.unPinPage pageNo dirty)
  unfold World.unPinPage
  split
  · rename_i w1 he
    have hw1 : w1 = (w.enter (Call.unPinPage pageNo dirty)).2 := by rw [he]
    rw [hfs] at hw1
    subst hw1
    split <;> rfl
  · rename_i st w1 hne he
    have hw1 : w1 = (w.enter (Call.unPinPage pageNo dirty)).2 := by rw [he]
    rw [hfs] at hw1
    subst hw1
    rfl

theorem pageAt_congr {w w2 : World} (h : w2.pages = w.pages) (p : Int) :
    w2.pageAt p = w.pageAt p := by
  simp [World.pageAt, h]

theorem pageAt_pageNo {w : World} (hwf : PagesWF w) (p : Int)
    (h : (w.pageAt p).liveSlots ≠ []) : (w.pageAt p).pageNo = p := by
  unfold World.pageAt at h ⊢
  cases hp : w.pages p with
  | none => rw [hp] at h; exact absurd rfl h
  | some pg => exact hwf p pg hp

theorem firstRecord_cases (pg : Page) (out : RID) :
    (pg.liveSlots = [] ∧ pg.firstRecord out = (Status.NORECORDS, out))
    ∨ (∃ i t, pg.liveSlots = i :: t ∧ pg.firstRecord out = (Status.OK, ⟨pg.pageNo, i⟩)) := by
  unfold Page.firstRecord
  cases h : pg.liveSlots with
  | nil => left; simp
  | cons i t => right; exact ⟨i, t, rfl, rfl⟩

theorem nextRecord_cases (pg : Page) (cur out : RID) :
    (pg.liveSlots.find? (fun (i : Nat) => decide (cur.slotNo < (i : Int))) = none
        ∧ pg.nextRecord cur out = (Status.ENDOFPAGE, out))
    ∨ (∃ i, pg.liveSlots.find? (fun (i : Nat) => decide (cur.slotNo < (i : Int))) = some i
        ∧ pg.nextRecord cur out = (Status.OK, ⟨pg.pageNo, i⟩)) := by
  unfold Page.nextRecord
  cases h : pg.liveSlots.find? (fun (i : Nat) => decide (cur.slotNo < (i : Int))) with
  | none => left; simp
  | some i => right; exact ⟨i, rfl, rfl⟩

theorem pageLoop_returned_ne_ok (fuel : Nat) (w : World) (s : HeapFileScan) (st : Status)
    (st2 : Status) (w2 : World) (s2 : HeapFileScan)
    (h : pageLoop fuel w s st = some (LoopExit.returned st2 w2 s2)) : st2 ≠ Status.OK := by
  induction fuel generalizing w s st with
  | zero => simp [pageLoop] at h
  | succ fuel ih =>
    unfold pageLoop at h
    split at h
    · split at h
      · simp at h
      · rename_i p hp
        dsimp only at h
        split at h
        · simp only [Option.some.injEq, LoopExit.returned.injEq] at h
          rw [← h.1]; simp
        · split at h
          · rename_i hu
            simp only [Option.some.injEq, LoopExit.returned.injEq] at h
            rw [← h.1]; exact hu
          · split at h
            · rename_i hr
              simp only [Option.some.injEq, LoopExit.returned.injEq] at h
              rw [← h.1]; exact hr
            · split at h
              · simp at h
              · exact ih _ _ _ h
    · simp at h

theorem pageLoop_left (fuel : Nat) (w : World) (s : HeapFileScan) (st : Status)
    (st2 : Status) (w2 : World) (s2 : HeapFileScan) (hwf : PagesWF w)
    (hst : st = Status.OK ∨ st = Status.ENDOFPAGE ∨ st = Status.NORECORDS)
    (hon : st = Status.OK → OnPage s)
    (h : pageLoop fuel w s st = some (LoopExit.left st2 w2 s2)) :
    st2 = Status.OK ∧ OnPage s2 ∧ w2.pages = w.pages ∧ SamePred s2 s := by
  induction fuel generalizing w s st with
  | zero => simp [pageLoop] at h
  | succ fuel ih =>
    unfold pageLoop at h
    split at h
    · split at h
      · simp at h
      · rename_i p hp
        dsimp only at h
        split at h
        · simp at h
        · split at h
          · simp at h
          · split at h
            · simp at h
            · rename_i hr
              have hptr := readPage_ok_ptr _ _ _ (not_not.mp hr)
              split at h
              · rename_i hnone
                simp only [hptr] at hnone
                simp at hnone
              · rename_i q hq
                simp only [hptr, Option.some.injEq] at hq
                subst hq
                have hpages : ((w.unPinPage s.curPageNo s.curDirtyFlag).2.readPage
                    (w.pageAt p).nextPage none).2.1.pages = w.pages := by
                  rw [readPage_pages, unPinPage_pages]
                have hwf2 : PagesWF ((w.unPinPage s.curPageNo s.curDirtyFlag).2.readPage
                    (w.pageAt p).nextPage none).2.1 := by
                  intro k pg hk
                  rw [hpages] at hk
                  exact hwf k pg hk
                have := ih _ _ _ hwf2 ?_ ?_ h
                · refine ⟨this.1, this.2.1, ?_, ?_⟩
                  · rw [this.2.2.1, hpages]
                  · obtain ⟨a, b, c, d, e⟩ := this.2.2.2
                    exact ⟨a, b, c, d, e⟩
                · rcases firstRecord_cases (World.pageAt _ (w.pageAt p).nextPage) s.curRec with hc | ⟨i, t, hl, hc⟩
                  · right; right; rw [hc.2]
                  · left; rw [hc]
                · intro hok
                  rcases firstRecord_cases (World.pageAt _ (w.pageAt p).nextPage) s.curRec with hc | ⟨i, t, hl, hc⟩
                  · rw [hc.2] at hok; simp at hok
                  · have hpn := pageAt_pageNo hwf2 _ (by rw [hl]; simp)
                    simp only [OnPage, hptr, hc, hpn]
                    simp
    · rename_i hne
      simp only [Option.some.injEq, LoopExit.left.injEq] at h
      obtain ⟨h1, h2, h3⟩ := h
      subst h1 h2 h3
      have : st = Status.OK := by
        rcases hst with h | h | h
        · exact h
        · exact absurd (Or.inl h) hne
        · exact absurd (Or.inr h) hne
      exact ⟨this, hon this, rfl, rfl, rfl, rfl, rfl, rfl⟩

theorem find?_mem_ne_nil {l : List Nat} {f : Nat → Bool} {i : Nat} (h : l.find? f = some i) :
    l ≠ [] := by
  intro hl
  rw [hl] at h
  simp at h

theorem recLoop_ok (fuel : Nat) (w : World) (s : HeapFileScan) (r : ScanResult)
    (hwf : PagesWF w) (hco : Coherent s.toHeapFile)
    (h : recLoop fuel w s = some r) (hok : r.status = Status.OK) :
    ∃ rec, r.outRid = some r.scan.curRec
      ∧ (r.world.pageAt r.scan.curRec.pageNo).getRecord r.scan.curRec = some rec
      ∧ matchRec r.scan rec = true
      ∧ OnPage r.scan ∧ r.world.pages = w.pages ∧ SamePred r.scan s := by
  induction fuel generalizing w s with
  | zero => simp [recLoop] at h
  | succ fuel ih =>
    unfold recLoop at h
    split at h
    · simp at h
    · rename_i p hp
      have hpc : p = s.curPageNo := hco p hp
      subst hpc
      dsimp only at h
      split at h
      · simp at h
      · rename_i st2 w2 s2 hpl
        simp only [Option.some.injEq] at h
        subst h
        exact absurd hok (pageLoop_returned_ne_ok _ _ _ _ _ _ _ hpl)
      · rename_i st2 w2 s2 hpl
        have hpre : ((w.pageAt s.curPageNo).nextRecord s.curRec s.curRec).1 = Status.OK ∨
            ((w.pageAt s.curPageNo).nextRecord s.curRec s.curRec).1 = Status.ENDOFPAGE ∨
            ((w.pageAt s.curPageNo).nextRecord s.curRec s.curRec).1 = Status.NORECORDS := by
          rcases nextRecord_cases (w.pageAt s.curPageNo) s.curRec s.curRec with hc | ⟨i, hf, hc⟩
          · right; left; rw [hc.2]
          · left; rw [hc]
        have hinv := pageLoop_left _ _ _ _ _ _ _ hwf hpre ?_ hpl
        · obtain ⟨hst2, hon2, hpages, hsame⟩ := hinv
          have hsame' : SamePred s2 s := by
            obtain ⟨a, b, c, d, e⟩ := hsame
            split at a <;> split at b <;> split at c <;> split at d <;> split at e <;>
              exact ⟨a, b, c, d, e⟩
          split at h
          · simp at h
          · rename_i q hq
            have hqc : q = s2.curPageNo := by
              rw [hon2.1] at hq
              simp only [Option.some.injEq] at hq
              exact hq.symm
            split at h
            · simp only [Option.some.injEq] at h
              subst h
              simp at hok
            · rename_i rec hrec
              split at h
              · rename_i hm
                simp only [Option.some.injEq] at h
                subst h
                refine ⟨rec, rfl, ?_, hm, hon2, hpages, hsame'⟩
                dsimp only
                rw [hon2.2, ← hqc]
                exact hrec
              · have hwf2 : PagesWF w2 := by
                  intro k pg hk
                  rw [hpages] at hk
                  exact hwf k pg hk
                have hco2 : Coherent s2.toHeapFile := by
                  intro p2 hp2
                  rw [hon2.1] at hp2
                  simp only [Option.some.injEq] at hp2
                  exact hp2.symm
                obtain ⟨rec2, h1, h2, h3, h4, h5, h6⟩ := ih w2 s2 hwf2 hco2 h
                refine ⟨rec2, h1, h2, h3, h4, ?_, ?_⟩
                · rw [h5, hpages]
                · obtain ⟨a, b, c, d, e⟩ := h6
                  obtain ⟨a2, b2, c2, d2, e2⟩ := hsame'
                  exact ⟨a.trans a2, b.trans b2, c.trans c2, d.trans d2, e.trans e2⟩
        · intro hok1
          rcases nextRecord_cases (w.pageAt s.curPageNo) s.curRec s.curRec with hc | ⟨i, hf, hc⟩
          · rw [hc.2] at hok1; simp at hok1
          · have hpn := pageAt_pageNo hwf _ (find?_mem_ne_nil hf)
            simp only [hc, if_true, OnPage, hp, hpn]
            simp

/-- Lemma for C1, the coherent case.  On a file whose pages know their own
numbers, and for a scan state whose page pointer (when set) refers to page
`curPageNo`: whenever scanNext returns OK
with RID `rid`, the record stored at `rid` satisfies matchRec under the scan's
predicate (which scanNext leaves as it was), the cursor `curRec` equals `rid`,
`curPage` is non-null and refers to page `rid.pageNo`, and `curPageNo = rid.pageNo`.
The pages themselves are unchanged. -/
theorem scanNext_ok (fuel : Nat) (w : World) (s : HeapFileScan) (r : ScanResult)
    (hwf : PagesWF w) (hco : Coherent s.toHeapFile)
    (h : scanNext fuel w s = some r) (hok : r.status = Status.OK) :
    ∃ rid rec, r.outRid = some rid
      ∧ (r.world.pageAt rid.pageNo).getRecord rid = some rec
      ∧ matchRec r.scan rec = true
      ∧ r.scan.curRec = rid
      ∧ r.scan.curPage = some rid.pageNo
      ∧ r.scan.curPageNo = rid.pageNo
      ∧ r.world.pages = w.pages
      ∧ SamePred r.scan s := by
  unfold scanNext at h
  split at h
  · simp only [Option.some.injEq] at h
    subst h
    simp at hok
  · split at h
    · obtain ⟨rec, h1, h2, h3, h4, h5, h6⟩ := recLoop_ok fuel w s r hwf hco h hok
      refine ⟨r.scan.curRec, rec, h1, h2, h3, rfl, ?_, ?_, h5, h6⟩
      · rw [h4.1, h4.2]
      · rw [h4.2]
    · rename_i hnone
      dsimp only at h
      split at h
      · simp only [Option.some.injEq] at h
        subst h
        simp at hok
      · split at h
        · rename_i hr
          simp only [Option.some.injEq] at h
          subst h
          exact absurd hok hr
        · rename_i hr
          have hptr := readPage_ok_ptr _ _ _ (not_not.mp hr)
          have hpages := readPage_pages w w.header.firstPage s.curPage
          have hwf2 : PagesWF (w.readPage w.header.firstPage s.curPage).2.1 := by
            intro k pg hk
            rw [hpages] at hk
            exact hwf k pg hk
          split at h
          · rename_i hn
            simp only [hptr] at hn
            simp at hn
          · rename_i p hp
            simp only [hptr, Option.some.injEq] at hp
            subst hp
            split at h
            · split at h
              · rename_i hu
                simp only [Option.some.injEq] at h
                subst h
                exact absurd hok hu
              · simp only [Option.some.injEq] at h
                subst h
                simp at hok
            · rename_i hnr
              rcases firstRecord_cases ((w.readPage w.header.firstPage s.curPage).2.1.pageAt
                  w.header.firstPage) NULLRID with hc | ⟨i, t, hl, hc⟩
              · rw [hc.2] at hnr
                simp at hnr
              · have hpn := pageAt_pageNo hwf2 _ (by rw [hl]; simp)
                split at h
                · simp only [Option.some.injEq] at h
                  subst h
                  simp at hok
                · rename_i rec hrec
                  split at h
                  · rename_i hm
                    simp only [Option.some.injEq] at h
                    subst h
                    refine ⟨_, rec, rfl, ?_, hm, rfl, ?_, ?_, hpages, ?_⟩
                    · simp only [hc, hpn] at hrec ⊢
                      exact hrec
                    · simp only [hptr, hc, hpn]
                    · simp only [hc, hpn]
                    · exact ⟨rfl, rfl, rfl, rfl, rfl⟩
                  · have hco2 : Coherent
                        ({ s with curPageNo := w.header.firstPage,
                                  curPage := (w.readPage w.header.firstPage s.curPage).2.2,
                                  curDirtyFlag := false,
                                  curRec := (((w.readPage w.header.firstPage s.curPage).2.1.pageAt
                                    w.header.firstPage).firstRecord NULLRID).2 } :
                          HeapFileScan).toHeapFile := by
                      intro p2 hp2
                      simp only [hptr, Option.some.injEq] at hp2
                      exact hp2.symm
                    obtain ⟨rec2, h1, h2, h3, h4, h5, h6⟩ := recLoop_ok fuel _ _ r hwf2 hco2 h hok
                    refine ⟨r.scan.curRec, rec2, h1, h2, h3, rfl, ?_, ?_, ?_, ?_⟩
                    · rw [h4.1, h4.2]
                    · rw [h4.2]
                    · rw [h5, hpages]
                    · exact h6

theorem enter_nil (w : World) (c : Call) (h : w.faults = []) :
    w.enter c = (Status.OK, { w with log := w.log ++ [c] }) := by
  unfold World.enter
  rw [h]

theorem readPage_nil (w : World) (pageNo : Int) (ptr : Option Int) (h : w.faults = [])
    (hex : pageNo = w.firstPageNo ∨ (w.pages pageNo).isSome = true) :
    w.readPage pageNo ptr =
      (Status.OK, { w with log := w.log ++ [Call.readPage pageNo],
                           pins := fun k => if k = pageNo then w.pins k + 1 else w.pins k },
        some pageNo) := by
  unfold World.readPage
  rw [enter_nil w _ h]
  simp only [hex, if_true]

theorem unPinPage_nil (w : World) (pageNo : Int) (dirty : Bool) (h : w.faults = [])
    (hpin : 1 ≤ w.pins pageNo) :
    w.unPinPage pageNo dirty =
      (Status.OK, { w with log := w.log ++ [Call.unPinPage pageNo dirty],
                           pins := fun k => if k = pageNo then w.pins k - 1 else w.pins k }) := by
  unfold World.unPinPage
  rw [enter_nil w _ h]
  have : ¬ (w.pins pageNo = 0) := by omega
  simp only [this, if_false]

theorem isChain_cons {pages : Int → Option Page} {first p : Int} {rest : List Int}
    (h : isChain pages first (p :: rest) = true) :
    ∃ pg, pages p = some pg ∧ first = p ∧ 0 ≤ p ∧ pg.pageNo = p
      ∧ isChain pages pg.nextPage rest = true := by
  unfold isChain at h
  cases hp : pages p with
  | none => rw [hp] at h; simp at h
  | some pg =>
    rw [hp] at h
    simp only [Bool.and_eq_true, decide_eq_true_eq] at h
    exact ⟨pg, rfl, h.1.1.1, h.1.1.2, h.1.2, h.2⟩

theorem pageLoop_seek (rest : List Int) (w : World) (s : HeapFileScan) (p : Int) (st : Status)
    (fuel : Nat) (hpos : Positioned w s p rest)
    (hst : st = Status.ENDOFPAGE ∨ st = Status.NORECORDS) (hfuel : rest.length + 1 ≤ fuel) :
    (seek w.pages rest = none →
      ∃ w2 s2, pageLoop fuel w s st = some (LoopExit.returned Status.FILEEOF w2 s2))
    ∧ (∀ q i rest2, seek w.pages rest = some (q, i, rest2) →
      ∃ w2 s2, pageLoop fuel w s st = some (LoopExit.left Status.OK w2 s2)
        ∧ Positioned w2 s2 q rest2 ∧ s2.curRec = ⟨q, i⟩ ∧ w2.pages = w.pages
        ∧ w2.header = w.header ∧ rest2.length < rest.length) := by
  induction rest generalizing w s p st fuel with
  | nil =>
    obtain ⟨hf, hfil, hcp, hcn, hpin, hch⟩ := hpos
    obtain ⟨pg, hpg, -, hp0, hpn, hnext⟩ := isChain_cons hch
    simp only [isChain, decide_eq_true_eq] at hnext
    obtain ⟨fuel, rfl⟩ : ∃ f, fuel = f + 1 := ⟨fuel - 1, by simp at hfuel; omega⟩
    constructor
    · intro _
      unfold pageLoop
      simp only [hst, if_true, hcp, World.pageAt, hpg, Option.getD_some, hnext]
      exact ⟨_, _, rfl⟩
    · intro q i rest2 h
      simp [seek] at h
  | cons q rest ih =>
    obtain ⟨hf, hfil, hcp, hcn, hpin, hch⟩ := hpos
    obtain ⟨pg, hpg, -, hp0, hpn, hnext⟩ := isChain_cons hch
    obtain ⟨pgq, hpgq, hnq, hq0, hqn, hnext2⟩ := isChain_cons hnext
    obtain ⟨fuel, rfl⟩ : ∃ f, fuel = f + 1 := ⟨fuel - 1, by simp at hfuel; omega⟩
    have hne : ¬ (pg.nextPage = -1) := by omega
    have hu := unPinPage_nil w p s.curDirtyFlag hf hpin
    have hr := readPage_nil
      { w with log := w.log ++ [Call.unPinPage p s.curDirtyFlag],
               pins := fun k => if k = p then w.pins k - 1 else w.pins k }
      q none hf (Or.inr (by simp [hpgq]))
    have hunf : pageLoop (fuel + 1) w s st =
        pageLoop fuel
          { w with log := w.log ++ [Call.unPinPage p s.curDirtyFlag] ++ [Call.readPage q],
                   pins := fun k => if k = q then (if k = p then w.pins k - 1 else w.pins k) + 1
                                    else (if k = p then w.pins k - 1 else w.pins k) }
          { s with curPage := some q, curPageNo := q, curDirtyFlag := false,
                   curRec := (pgq.firstRecord s.curRec).2 }
          (pgq.firstRecord s.curRec).1 := by
      conv_lhs => unfold pageLoop
      have hqne : ¬ (q = -1) := by omega
      simp only [hst, if_true, hcp, World.pageAt, hpg, Option.getD_some, hqne, if_false, hcn, hu,
        ne_eq, not_true_eq_false, hnq, hr, hpgq]
    rw [hunf]
    have hpos2 : ∀ c, Positioned
          { w with log := w.log ++ [Call.unPinPage p s.curDirtyFlag] ++ [Call.readPage q],
                   pins := fun k => if k = q then (if k = p then w.pins k - 1 else w.pins k) + 1
                                    else (if k = p then w.pins k - 1 else w.pins k) }
          { s with curPage := some q, curPageNo := q, curDirtyFlag := false, curRec := c }
          q rest := by
      intro c
      refine ⟨hf, hfil, rfl, rfl, ?_, ?_⟩
      · simp
      · rw [hnq] at hnext; exact hnext
    cases hl : pgq.liveSlots with
    | nil =>
      have hfr : pgq.firstRecord s.curRec = (Status.NORECORDS, s.curRec) := by
        simp [Page.firstRecord, hl]
      rw [hfr]
      have hseek : seek w.pages (q :: rest) = seek w.pages rest := by
        simp [seek, hpgq, hl]
      rw [hseek]
      have := ih _ _ q Status.NORECORDS fuel (hpos2 s.curRec) (Or.inr rfl)
        (by simp at hfuel; omega)
      refine ⟨this.1, ?_⟩
      intro q2 i rest2 h
      obtain ⟨w2, s2, h1, h2, h3, h4, h5, h6⟩ := this.2 q2 i rest2 h
      exact ⟨w2, s2, h1, h2, h3, h4, h5, by simp; omega⟩
    | cons i t =>
      have hfr : pgq.firstRecord s.curRec = (Status.OK, ⟨q, i⟩) := by
        simp [Page.firstRecord, hl, hqn]
      rw [hfr]
      have hseek : seek w.pages (q :: rest) = some (q, i, rest) := by
        simp [seek, hpgq, hl]
      rw [hseek]
      obtain ⟨fuel, rfl⟩ : ∃ f, fuel = f + 1 := ⟨fuel - 1, by simp at hfuel; omega⟩
      constructor
      · intro h; simp at h
      · intro q2 i2 rest2 h
        simp only [Option.some.injEq, Prod.mk.injEq] at h
        obtain ⟨rfl, rfl, rfl⟩ := h
        refine ⟨_, _, ?_, hpos2 _, rfl, rfl, rfl, by simp⟩
        unfold pageLoop
        simp

theorem mem_liveFrom (l : List (Option Record)) (b i : Nat) :
    i ∈ liveFrom l b ↔ b ≤ i ∧ (l.getD (i - b) none).isSome = true := by
  induction l generalizing b with
  | nil => simp [liveFrom]
  | cons x xs ih =>
    cases x with
    | none =>
      simp only [liveFrom, ih]
      constructor
      · rintro ⟨h1, h2⟩
        refine ⟨by omega, ?_⟩
        have : i - b = (i - (b + 1)) + 1 := by omega
        rw [this]
        simpa using h2
      · rintro ⟨h1, h2⟩
        have hne : i ≠ b := by
          intro h
          subst h
          simp at h2
        have : i - b = (i - (b + 1)) + 1 := by omega
        rw [this] at h2
        exact ⟨by omega, by simpa using h2⟩
    | some r =>
      simp only [liveFrom, List.mem_cons, ih]
      constructor
      · rintro (h | ⟨h1, h2⟩)
        · subst h; simp
        · refine ⟨by omega, ?_⟩
          have : i - b = (i - (b + 1)) + 1 := by omega
          rw [this]
          simpa using h2
      · rintro ⟨h1, h2⟩
        by_cases h : i = b
        · exact Or.inl h
        · right
          have : i - b = (i - (b + 1)) + 1 := by omega
          rw [this] at h2
          exact ⟨by omega, by simpa using h2⟩

theorem liveFrom_sorted (l : List (Option Record)) (b : Nat) :
    (liveFrom l b).Pairwise (· < ·) := by
  induction l generalizing b with
  | nil => simp [liveFrom]
  | cons x xs ih =>
    cases x with
    | none => simpa [liveFrom] using ih (b + 1)
    | some r =>
      simp only [liveFrom, List.pairwise_cons]
      refine ⟨?_, ih (b + 1)⟩
      intro a ha
      have := (mem_liveFrom xs (b + 1) a).mp ha
      omega

theorem find?_eq_head?_filter (l : List Nat) (f : Nat → Bool) :
    l.find? f = (l.filter f).head? := by
  induction l with
  | nil => rfl
  | cons x xs ih =>
    by_cases h : f x = true
    · rw [List.find?_cons_of_pos _ h, List.filter_cons_of_pos h]
      rfl
    · rw [List.find?_cons_of_neg _ h, List.filter_cons_of_neg h]
      exact ih

theorem filter_gt_step (l : List Nat) (hs : l.Pairwise (· < ·)) (c : Int) (i : Nat)
    (t : List Nat)
    (h : l.filter (fun (k : Nat) => decide (c < (k : Int))) = i :: t) :
    l.filter (fun (k : Nat) => decide (((i : Nat) : Int) < (k : Int))) = t := by
  induction l with
  | nil => simp at h
  | cons x xs ih =>
    rw [List.pairwise_cons] at hs
    by_cases hx : c < (x : Int)
    · simp only [List.filter, hx, decide_True, List.cons.injEq] at h
      obtain ⟨rfl, ht⟩ := h
      have hall : ∀ a ∈ xs, decide (((x : Nat) : Int) < (a : Int)) = true := by
        intro a ha
        have := hs.1 a ha
        simp only [decide_eq_true_eq]
        omega
      simp only [List.filter, lt_self_iff_false, decide_False]
      rw [List.filter_eq_self.mpr hall]
      rw [← ht]
      symm
      apply List.filter_eq_self.mpr
      intro a ha
      have := hs.1 a ha
      simp only [decide_eq_true_eq]
      omega
    · simp only [List.filter, hx, decide_False] at h
      have hi : i ∈ xs.filter (fun (k : Nat) => decide (c < (k : Int))) := by
        rw [h]; simp
      have hci : c < (i : Int) := by
        simpa using (List.mem_filter.mp hi).2
      have hxi : ¬ ((i : Int) < (x : Int)) := by omega
      simp only [List.filter, hxi, decide_False]
      exact ih hs.2 h

theorem filter_gt_head (i : Nat) (t : List Nat) (hs : (i :: t).Pairwise (· < ·)) :
    (i :: t).filter (fun (k : Nat) => decide (((i : Nat) : Int) < (k : Int))) = t := by
  have := filter_gt_step (i :: t) hs (-1) i t (by
    apply List.filter_eq_self.mpr
    intro a _
    simp only [decide_eq_true_eq]
    omega)
  exact this

theorem filter_gt_neg_one (l : List Nat) :
    l.filter (fun (k : Nat) => decide ((-1 : Int) < (k : Int))) = l := by
  apply List.filter_eq_self.mpr
  intro a _
  simp only [decide_eq_true_eq]
  omega

theorem getRecord_of_live (pg : Page) (x : Int) (i : Nat) (h : i ∈ pg.liveSlots) :
    ∃ r, pg.getRecord ⟨x, (i : Int)⟩ = some r := by
  have := (mem_liveFrom pg.slots 0 i).mp h
  simp only [Nat.sub_zero] at this
  unfold Page.getRecord
  have hn : ¬ ((i : Int) < 0) := by omega
  simp only [hn, if_false, Int.toNat_ofNat]
  exact Option.isSome_iff_exists.mp this.2

theorem seek_none {pages : Int → Option Page} {rest : List Int} (h : seek pages rest = none) :
    chainRids pages rest = [] := by
  induction rest with
  | nil => rfl
  | cons q rest ih =>
    unfold seek at h
    split at h
    · rename_i hl
      simp [chainRids, liveRidsOfPage, hl, ih h]
    · simp at h

theorem seek_some {pages : Int → Option Page} {rest rest2 : List Int} {q : Int} {i : Nat}
    (h : seek pages rest = some (q, i, rest2)) :
    ∃ tl, ((pages q).getD Page.blank).liveSlots = i :: tl
      ∧ chainRids pages rest = liveRidsOfPage pages q ++ chainRids pages rest2 := by
  induction rest with
  | nil => simp [seek] at h
  | cons q0 rest ih =>
    unfold seek at h
    split at h
    · rename_i hl
      obtain ⟨tl, h1, h2⟩ := ih h
      exact ⟨tl, h1, by simp [chainRids, liveRidsOfPage, hl, h2]⟩
    · rename_i i0 tl hl
      simp only [Option.some.injEq, Prod.mk.injEq] at h
      obtain ⟨rfl, rfl, rfl⟩ := h
      exact ⟨tl, hl, rfl⟩

theorem matchRec_no_filter (s : HeapFileScan) (rec : Record) (h : s.filter = none) :
    matchRec s rec = true := by
  simp [matchRec, h]

theorem pageLoop_ok (fuel : Nat) (w : World) (s : HeapFileScan) :
    pageLoop (fuel + 1) w s Status.OK = some (LoopExit.left Status.OK w s) := by
  unfold pageLoop
  simp

theorem scanNext_step (w : World) (s : HeapFileScan) (p : Int) (rest : List Int) (fuel : Nat)
    (hpos : Positioned w s p rest) (hfuel : rest.length + 2 ≤ fuel) :
    (remaining w.pages p s.curRec.slotNo rest = [] →
      ∃ w2 s2, scanNext fuel w s = some ⟨Status.FILEEOF, none, w2, s2⟩)
    ∧ (∀ rid t, remaining w.pages p s.curRec.slotNo rest = rid :: t →
      ∃ w2 s2 p2 rest2, scanNext fuel w s = some ⟨Status.OK, some rid, w2, s2⟩
        ∧ Positioned w2 s2 p2 rest2 ∧ rest2.length ≤ rest.length ∧ w2.pages = w.pages
        ∧ w2.header = w.header ∧ remaining w.pages p2 s2.curRec.slotNo rest2 = t) := by
  obtain ⟨hf, hfil, hcp, hcn, hpin, hch⟩ := id hpos
  obtain ⟨pg, hpg, -, hp0, hpn, hnext⟩ := isChain_cons hch
  obtain ⟨fuel, rfl⟩ : ∃ f, fuel = f + 1 := ⟨fuel - 1, by omega⟩
  have hnneg : ¬ (s.curPageNo < 0) := by omega
  have hpa : w.pageAt p = pg := by simp [World.pageAt, hpg]
  have hsn : scanNext (fuel + 1) w s = recLoop (fuel + 1) w s := by
    unfold scanNext
    simp only [hnneg, if_false, hcp]
  rw [hsn]
  have hsorted : pg.liveSlots.Pairwise (· < ·) := liveFrom_sorted _ _
  cases hfind : pg.liveSlots.find? (fun (k : Nat) => decide (s.curRec.slotNo < (k : Int))) with
  | some i =>
    have hnr : pg.nextRecord s.curRec s.curRec = (Status.OK, ⟨p, i⟩) := by
      simp [Page.nextRecord, hfind, hpn]
    have hmem : i ∈ pg.liveSlots := List.mem_of_find?_eq_some hfind
    obtain ⟨rec, hrec⟩ := getRecord_of_live pg p i hmem
    obtain ⟨fuel, rfl⟩ : ∃ f, fuel = f + 1 := ⟨fuel - 1, by omega⟩
    have hrl : recLoop (fuel + 1 + 1) w s =
        some ⟨Status.OK, some ⟨p, i⟩, w, { s with curRec := ⟨p, i⟩ }⟩ := by
      conv_lhs => unfold recLoop
      simp only [hcp, hpa, hnr, if_true, pageLoop_ok, hrec]
      simp [matchRec, hfil]
    rw [hrl]
    rw [find?_eq_head?_filter] at hfind
    have hrem : ∃ t0, pg.liveSlots.filter (fun (k : Nat) => decide (s.curRec.slotNo < (k : Int)))
        = i :: t0 := by
      cases hl : pg.liveSlots.filter (fun (k : Nat) => decide (s.curRec.slotNo < (k : Int))) with
      | nil => rw [hl] at hfind; simp at hfind
      | cons a t0 =>
        rw [hl] at hfind
        simp only [List.head?_cons, Option.some.injEq] at hfind
        exact ⟨t0, by rw [hfind]⟩
    obtain ⟨t0, ht0⟩ := hrem
    constructor
    · intro h
      simp [remaining, hpg, ht0] at h
    · intro rid t h
      simp only [remaining, hpg, Option.getD_some, ht0, List.map_cons, List.cons_append,
        List.cons.injEq] at h
      obtain ⟨rfl, rfl⟩ := h
      refine ⟨w, _, p, rest, rfl, ⟨hf, hfil, hcp, hcn, hpin, hch⟩, le_refl _, rfl, rfl, ?_⟩
      simp only [remaining, hpg, Option.getD_some]
      rw [filter_gt_step _ hsorted _ _ _ ht0]
  | none =>
    have hnr : pg.nextRecord s.curRec s.curRec = (Status.ENDOFPAGE, s.curRec) := by
      simp [Page.nextRecord, hfind]
    rw [find?_eq_head?_filter] at hfind
    have hnil : pg.liveSlots.filter (fun (k : Nat) => decide (s.curRec.slotNo < (k : Int))) = [] := by
      cases hl : pg.liveSlots.filter (fun (k : Nat) => decide (s.curRec.slotNo < (k : Int))) with
      | nil => rfl
      | cons a t0 => rw [hl] at hfind; simp at hfind
    have hrem : remaining w.pages p s.curRec.slotNo rest = chainRids w.pages rest := by
      simp [remaining, hpg, hnil]
    rw [hrem]
    have hseek := pageLoop_seek rest w s p Status.ENDOFPAGE fuel hpos (Or.inl rfl) (by omega)
    cases hsk : seek w.pages rest with
    | none =>
      obtain ⟨w2, s2, hpl⟩ := hseek.1 hsk
      constructor
      · intro _
        refine ⟨w2, s2, ?_⟩
        conv_lhs => unfold recLoop
        simp only [hcp, hpa, hnr]
        simp [hpl]
      · intro rid t h
        rw [seek_none hsk] at h
        simp at h
    | some x =>
      obtain ⟨q, i, rest2⟩ := x
      obtain ⟨w2, s2, hpl, hpos2, hcur, hpages, hhdr, hlen⟩ := hseek.2 q i rest2 hsk
      obtain ⟨tl, hlive, hchain⟩ := seek_some hsk
      obtain ⟨hf2, hfil2, hcp2, hcn2, hpin2, hch2⟩ := id hpos2
      have hpa2 : w2.pageAt q = (w.pages q).getD Page.blank := by
        simp [World.pageAt, hpages]
      obtain ⟨rec, hrec⟩ := getRecord_of_live ((w.pages q).getD Page.blank) q i
        (by rw [hlive]; simp)
      constructor
      · intro h
        rw [hchain] at h
        simp [liveRidsOfPage, hlive] at h
      · intro rid t h
        rw [hchain] at h
        simp only [liveRidsOfPage, hlive, List.map_cons, List.cons_append, List.cons.injEq] at h
        obtain ⟨rfl, rfl⟩ := h
        refine ⟨w2, s2, q, rest2, ?_, hpos2, by omega, hpages, hhdr, ?_⟩
        · conv_lhs => unfold recLoop
          simp only [hcp, hpa, hnr]
          simp [hpl, hcp2, hpa2, hcur, hrec, matchRec_no_filter _ _ hfil2]
        simp only [remaining, hcur]
        have hs2 : (i :: tl).Pairwise (· < ·) := by
          rw [← hlive]; exact liveFrom_sorted _ _
        rw [hlive, filter_gt_head i tl hs2]

theorem scanAll_remaining (rem : List RID) (w : World) (s : HeapFileScan) (p : Int)
    (rest : List Int) (fuel calls : Nat) (hpos : Positioned w s p rest)
    (hrem : remaining w.pages p s.curRec.slotNo rest = rem)
    (hfuel : rest.length + 2 ≤ fuel) (hcalls : rem.length + 1 ≤ calls) :
    ∃ w2 s2, scanAll fuel calls w s = some (rem, Status.FILEEOF, w2, s2) := by
  induction rem generalizing w s p rest calls with
  | nil =>
    obtain ⟨calls, rfl⟩ : ∃ c, calls = c + 1 := ⟨calls - 1, by simp at hcalls; omega⟩
    obtain ⟨w2, s2, h⟩ := (scanNext_step w s p rest fuel hpos hfuel).1 hrem
    exact ⟨w2, s2, by simp [scanAll, h]⟩
  | cons rid t ih =>
    obtain ⟨calls, rfl⟩ : ∃ c, calls = c + 1 := ⟨calls - 1, by simp at hcalls; omega⟩
    obtain ⟨w2, s2, p2, rest2, h, hpos2, hlen, hpages, -, hrem2⟩ :=
      (scanNext_step w s p rest fuel hpos hfuel).2 rid t hrem
    rw [← hpages] at hrem2
    obtain ⟨w3, s3, h3⟩ := ih w2 s2 p2 rest2 calls hpos2 hrem2 (by omega)
      (by simp at hcalls; omega)
    exact ⟨w3, s3, by simp [scanAll, h, h3]⟩

theorem ctor_positioned (w : World) (mem : HeapFileScan) (p0 : Int) (rest : List Int)
    (hf : w.faults = []) (hch : isChain w.pages w.header.firstPage (p0 :: rest) = true) :
    (HeapFileScan.ctor w mem).1 = Status.OK
    ∧ Positioned (HeapFileScan.ctor w mem).2.1 (HeapFileScan.ctor w mem).2.2 p0 rest
    ∧ (HeapFileScan.ctor w mem).2.2.curRec = NULLRID
    ∧ (HeapFileScan.ctor w mem).2.1.pages = w.pages
    ∧ (HeapFileScan.ctor w mem).2.1.header = w.header := by
  obtain ⟨pg, hpg, hfirst, hp0, hpn, hnext⟩ := isChain_cons hch
  have h1 := enter_nil w Call.openFile hf
  have h2 := enter_nil { w with log := w.log ++ [Call.openFile] } Call.getFirstPage hf
  have h3 := readPage_nil
    { w with log := w.log ++ [Call.openFile] ++ [Call.getFirstPage] } w.firstPageNo none hf
    (Or.inl rfl)
  have h4 := readPage_nil
    { w with log := w.log ++ [Call.openFile] ++ [Call.getFirstPage] ++ [Call.readPage w.firstPageNo],
             pins := fun k => if k = w.firstPageNo then w.pins k + 1 else w.pins k }
    p0 mem.curPage hf (Or.inr (by simp [hpg]))
  have hc : HeapFileScan.ctor w mem =
      (Status.OK,
        { w with log := w.log ++ [Call.openFile] ++ [Call.getFirstPage]
                    ++ [Call.readPage w.firstPageNo] ++ [Call.readPage p0],
                 pins := fun k => if k = p0
                    then (if k = w.firstPageNo then w.pins k + 1 else w.pins k) + 1
                    else (if k = w.firstPageNo then w.pins k + 1 else w.pins k) },
        { mem with headerPageNo := w.firstPageNo, hdrDirtyFlag := false, curPageNo := p0,
                   curPage := some p0, curDirtyFlag := false, curRec := NULLRID,
                   filter := none }) := by
    simp only [HeapFileScan.ctor, HeapFile.ctor, h1, h2, if_true, h3, hfirst, h4]
  rw [hc]
  refine ⟨rfl, ⟨hf, rfl, rfl, rfl, ?_, ?_⟩, rfl, rfl, rfl⟩
  · simp
  · simp only
    rw [hfirst] at hch
    exact hch

theorem chainRids_length (pages : Int → Option Page) (ps : List Int) :
    (chainRids pages ps).length = liveCount pages ps := by
  induction ps with
  | nil => rfl
  | cons p rest ih => simp [chainRids, liveCount, liveRidsOfPage, ih]

theorem mem_liveRidsOfPage (pages : Int → Option Page) (p : Int) (rid : RID) :
    rid ∈ liveRidsOfPage pages p ↔
      rid.pageNo = p ∧ (((pages p).getD Page.blank).getRecord rid).isSome = true := by
  unfold liveRidsOfPage
  simp only [List.mem_map]
  constructor
  · rintro ⟨i, hi, rfl⟩
    obtain ⟨r, hr⟩ := getRecord_of_live _ p i hi
    exact ⟨rfl, by rw [hr]; rfl⟩
  · rintro ⟨hp, hs⟩
    unfold Page.getRecord at hs
    split at hs
    · simp at hs
    · rename_i hneg
      refine ⟨rid.slotNo.toNat, ?_, ?_⟩
      · unfold Page.liveSlots
        rw [mem_liveFrom]
        exact ⟨Nat.zero_le _, by simpa using hs⟩
      · cases rid with
        | mk pn sn =>
          simp only at hp hneg ⊢
          subst hp
          congr 1
          omega

theorem mem_chainRids (pages : Int → Option Page) (ps : List Int) (rid : RID) :
    rid ∈ chainRids pages ps ↔
      rid.pageNo ∈ ps ∧ (((pages rid.pageNo).getD Page.blank).getRecord rid).isSome = true := by
  induction ps with
  | nil => simp [chainRids]
  | cons p rest ih =>
    simp only [chainRids, List.mem_append, mem_liveRidsOfPage, ih, List.mem_cons]
    constructor
    · rintro (⟨h1, h2⟩ | ⟨h1, h2⟩)
      · exact ⟨Or.inl h1, by rw [h1]; exact h2⟩
      · exact ⟨Or.inr h1, h2⟩
    · rintro ⟨h1 | h1, h2⟩
      · exact Or.inl ⟨h1, by rw [← h1]; exact h2⟩
      · exact Or.inr ⟨h1, h2⟩

theorem liveRidsOfPage_nodup (pages : Int → Option Page) (p : Int) :
    (liveRidsOfPage pages p).Nodup := by
  unfold liveRidsOfPage
  apply List.Nodup.map
  · intro a b h
    simp only [RID.mk.injEq, true_and] at h
    exact_mod_cast h
  · have := liveFrom_sorted ((pages p).getD Page.blank).slots 0
    exact this.imp (fun h => Nat.ne_of_lt h)

theorem chainRids_nodup (pages : Int → Option Page) (ps : List Int) (h : ps.Nodup) :
    (chainRids pages ps).Nodup := by
  induction ps with
  | nil => simp [chainRids]
  | cons p rest ih =>
    rw [List.nodup_cons] at h
    simp only [chainRids]
    rw [List.nodup_append]
    refine ⟨liveRidsOfPage_nodup pages p, ih h.2, ?_⟩
    intro rid h1 h2
    rw [mem_liveRidsOfPage] at h1
    rw [mem_chainRids] at h2
    rw [h1.1] at h2
    exact h.1 h2.1

/-- Every page of the sample file knows its own number. -/
theorem exPages_wf : ∀ k pg, exPages k = some pg → pg.pageNo = k := by
  intro k pg h
  unfold exPages at h
  split_ifs at h with h1 h2 h3 <;> simp only [Option.some.injEq] at h <;> subst h <;>
    simp only [*]

/-- Lemma for C2, the scan itself.  For a heap file whose page chain from
`header.firstPage` is the finite, repetition-free list `p0 :: rest` (pages may
be empty) and whose collaborators do not fail: opening a scan succeeds, and
calling scanNext (with enough fuel) until it does not return OK yields exactly
the RIDs of the live records in page-chain order and slot order within a page,
ended by FILEEOF; every such RID occurs once, a RID is returned exactly when it
names a live record of a chain page, and their number is the number of live
records.  The header count `getRecCnt` does not occur. -/
theorem scan_complete (w : World) (mem : HeapFileScan) (p0 : Int) (rest : List Int)
    (hf : w.faults = [])
    (hch : isChain w.pages w.header.firstPage (p0 :: rest) = true)
    (hnd : (p0 :: rest).Nodup) :
    (HeapFileScan.ctor w mem).1 = Status.OK
    ∧ (∀ fuel calls, rest.length + 2 ≤ fuel → liveCount w.pages (p0 :: rest) + 1 ≤ calls →
        ∃ w2 s2, scanAll fuel calls (HeapFileScan.ctor w mem).2.1 (HeapFileScan.ctor w mem).2.2
          = some (chainRids w.pages (p0 :: rest), Status.FILEEOF, w2, s2))
    ∧ (chainRids w.pages (p0 :: rest)).Nodup
    ∧ (∀ rid, rid ∈ chainRids w.pages (p0 :: rest) ↔
        rid.pageNo ∈ p0 :: rest ∧ ((w.pageAt rid.pageNo).getRecord rid).isSome = true)
    ∧ (chainRids w.pages (p0 :: rest)).length = liveCount w.pages (p0 :: rest) := by
  obtain ⟨hok, hpos, hcur, hpages, -⟩ := ctor_positioned w mem p0 rest hf hch
  refine ⟨hok, ?_, chainRids_nodup _ _ hnd, ?_, ?_⟩
  · intro fuel calls hfuel hcalls
    have hrem : remaining (HeapFileScan.ctor w mem).2.1.pages p0
        (HeapFileScan.ctor w mem).2.2.curRec.slotNo rest = chainRids w.pages (p0 :: rest) := by
      rw [hcur, hpages]
      simp only [remaining, NULLRID, chainRids, liveRidsOfPage]
      rw [filter_gt_neg_one]
    exact scanAll_remaining _ _ _ p0 rest fuel calls hpos hrem hfuel
      (by rw [chainRids_length]; exact hcalls)
  · intro rid
    exact mem_chainRids w.pages (p0 :: rest) rid
  · exact chainRids_length _ _

/-- Instance of the scan lemma for C2: the full scan of the sample file
1 → 2 → 3 (page 2 empty) returns (1,0), (1,2), (3,1) and then FILEEOF; here the
header counts 3 records. -/
theorem scan_complete_witness :
    (HeapFileScan.ctor exWorld c3Scan).1 = Status.OK
    ∧ (∃ w2 s2, scanAll 4 4 (HeapFileScan.ctor exWorld c3Scan).2.1
          (HeapFileScan.ctor exWorld c3Scan).2.2
        = some ([⟨1, 0⟩, ⟨1, 2⟩, ⟨3, 1⟩], Status.FILEEOF, w2, s2))
    ∧ getRecCnt exWorld = 3 :=
  have h := scan_complete exWorld c3Scan 1 [2, 3] rfl (by decide) (by decide)
  ⟨h.1, h.2.1 4 4 (by decide) (by decide), by decide⟩

/-- scanNext on the sample scan returns within 5 units of fuel. -/
theorem exScan_isSome : (scanNext 5 exOpenWorld exScan).isSome = true := by decide

/-- The page pointer of the sample scan refers to its current page. -/
theorem exScan_coherent : Coherent exScan.toHeapFile := by
  intro p hp
  have h1 : exScan.curPage = some 1 := by decide
  have h2 : exScan.curPageNo = 1 := by decide
  rw [h1] at hp
  rw [h2]
  exact (Option.some.inj hp).symm

/-- Instance of the coherent case of C1: on the sample file, a freshly opened scan with the predicate
`attribute >= 7` returns the RID (1, 2), which names a matching record on the
pinned current page. -/
theorem scanNext_ok_witness :
    ∃ r, scanNext 5 exOpenWorld exScan = some r ∧ r.status = Status.OK
      ∧ r.outRid = some ⟨1, 2⟩
      ∧ ∃ rid rec, r.outRid = some rid
        ∧ (r.world.pageAt rid.pageNo).getRecord rid = some rec
        ∧ matchRec r.scan rec = true
        ∧ r.scan.curRec = rid
        ∧ r.scan.curPage = some rid.pageNo
        ∧ r.scan.curPageNo = rid.pageNo
        ∧ r.world.pages = exOpenWorld.pages
        ∧ SamePred r.scan exScan :=
  ⟨(scanNext 5 exOpenWorld exScan).get exScan_isSome, by simp, by decide, by decide,
    scanNext_ok 5 exOpenWorld exScan _ exPages_wf exScan_coherent (by simp) (by decide)⟩

theorem unPinPage_spec (w : World) (pageNo : Int) (dirty : Bool) :
    ∃ fs, ((w.unPinPage pageNo dirty).1 = Status.OK ∧ w.pins pageNo ≠ 0
        ∧ (w.unPinPage pageNo dirty).2 =
            { w with log := w.log ++ [Call.unPinPage pageNo dirty], faults := fs,
                     pins := fun k => if k = pageNo then w.pins k - 1 else w.pins k })
      ∨ ((w.unPinPage pageNo dirty).1 ≠ Status.OK
        ∧ (w.unPinPage pageNo dirty).2 =
            { w with log := w.log ++ [Call.unPinPage pageNo dirty], faults := fs }) := by
  obtain ⟨fs, hfs⟩ := enter_spec w (Call.unPinPage pageNo dirty)
  refine ⟨fs, ?_⟩
  unfold World.unPinPage
  split
  · rename_i w1 he
    have hw1 : w1 = (w.enter (Call.unPinPage pageNo dirty)).2 := by rw [he]
    rw [hfs] at hw1
    subst hw1
    split
    · rename_i h0
      right
      exact ⟨by simp, rfl⟩
    · rename_i h0
      left
      exact ⟨rfl, h0, rfl⟩
  · rename_i st w1 hne he
    have hw1 : w1 = (w.enter (Call.unPinPage pageNo dirty)).2 := by rw [he]
    rw [hfs] at hw1
    subst hw1
    right
    exact ⟨fun h => hne h, rfl⟩

theorem World.deleteRecord_spec (w : World) (p : Int) (rid : RID) :
    ((w.deleteRecord p rid).1 = Status.OK ∨ (w.deleteRecord p rid).1 = Status.INVALIDSLOTNO)
    ∧ ((w.deleteRecord p rid).1 = Status.OK ↔ ((w.pageAt p).getRecord rid).isSome = true)
    ∧ (w.deleteRecord p rid).2.header = w.header
    ∧ (w.deleteRecord p rid).2.pins = w.pins
    ∧ (w.deleteRecord p rid).2.faults = w.faults
    ∧ (w.deleteRecord p rid).2.log = w.log ++ [Call.deleteRecord p rid]
    ∧ ((w.deleteRecord p rid).1 ≠ Status.OK → (w.deleteRecord p rid).2.pages = w.pages) := by
  unfold World.deleteRecord Page.deleteRecord
  cases hg : (w.pageAt p).getRecord rid with
  | none => simp [hg]
  | some rec => simp [hg, World.setPage]

/-- C16. For a scan with a pinned current page `p`, deleteRecord returns the
status of the page-level delete of `curRec` (OK exactly when that slot holds a
record), leaves `curRec`, `curPageNo` and the page pointer unchanged, sets the
current page's dirty flag and the header's dirty flag, decreases `recCnt` by
exactly 1, leaves `pageCnt`, `firstPage` and `lastPage` unchanged, changes no
pin and makes no buffer-manager call. -/
theorem deleteRecord_frame (w : World) (s : HeapFileScan) (p : Int) (hp : s.curPage = some p) :
    ∃ w2 s2, deleteRecord w s = some ((w.deleteRecord p s.curRec).1, w2, s2)
      ∧ s2.curRec = s.curRec ∧ s2.curPageNo = s.curPageNo ∧ s2.curPage = s.curPage
      ∧ s2.curDirtyFlag = true ∧ s2.hdrDirtyFlag = true
      ∧ w2.header.recCnt = w.header.recCnt - 1
      ∧ w2.header.pageCnt = w.header.pageCnt
      ∧ w2.header.firstPage = w.header.firstPage
      ∧ w2.header.lastPage = w.header.lastPage
      ∧ w2.pins = w.pins
      ∧ w2.log = w.log ++ [Call.deleteRecord p s.curRec]
      ∧ ((w.deleteRecord p s.curRec).1 = Status.OK ↔
          ((w.pageAt p).getRecord s.curRec).isSome = true) := by
  obtain ⟨h1, h2, h3, h4, h5, h6, h7⟩ := World.deleteRecord_spec w p s.curRec
  refine ⟨{ (w.deleteRecord p s.curRec).2 with
              header := { (w.deleteRecord p s.curRec).2.header with
                            recCnt := (w.deleteRecord p s.curRec).2.header.recCnt - 1 } },
    { s with curDirtyFlag := true, hdrDirtyFlag := true }, ?_, rfl, rfl, rfl, rfl, rfl,
    ?_, ?_, ?_, ?_, h4, h6, h2⟩
  · simp only [deleteRecord, hp]
  · simp only [h3]
  · simp only [h3]
  · simp only [h3]
  · simp only [h3]

/-- Witness for C16: the sample scan is positioned on the record (1,2) by a
scanNext that returned OK.  deleteRecord returns OK, the status of the
page-level delete, keeps cursor, page number and page pointer, sets both dirty
flags, takes the count from 3 to 2 and leaves the page count and the first and
last page as they were; the file then holds 2 live records. -/
theorem deleteRecord_frame_witness :
    (exOnRecord.status, exOnRecord.outRid) = (Status.OK, some ⟨1, 2⟩)
      ∧ getRecCnt exOnRecord.world = 3
      ∧ ((exOnRecord.world.pageAt 1).getRecord exOnRecord.scan.curRec).isSome = true
      ∧ (∃ w2 s2, deleteRecord exOnRecord.world exOnRecord.scan = some (Status.OK, w2, s2)
          ∧ s2.curRec = ⟨1, 2⟩ ∧ s2.curPageNo = 1 ∧ s2.curPage = some 1
          ∧ s2.curDirtyFlag = true ∧ s2.hdrDirtyFlag = true
          ∧ w2.header.recCnt = 2 ∧ w2.header.pageCnt = 3
          ∧ w2.header.firstPage = 1 ∧ w2.header.lastPage = 3)
      ∧ (deleteRecord exOnRecord.world exOnRecord.scan).map
          (fun r => liveCount r.2.1.pages [1, 2, 3]) = some 2 := by
  obtain ⟨w2, s2, h1, h2, h3, h4, h5, h6, h7, h8, h9, h10, -⟩ :=
    deleteRecord_frame exOnRecord.world exOnRecord.scan 1 (by decide)
  have hst : (exOnRecord.world.deleteRecord 1 exOnRecord.scan.curRec).1 = Status.OK := by decide
  rw [hst] at h1
  exact ⟨by decide, by decide, by decide,
    ⟨w2, s2, h1, by rw [h2]; decide, by rw [h3]; decide, by rw [h4]; decide, h5, h6,
      by rw [h7]; decide, by rw [h8]; decide, by rw [h9]; decide, by rw [h10]; decide⟩,
    by decide⟩

/-- C17 as amended.  After endScan the page pointer is null.  When a page was
pinned, endScan unpins it with the handle's dirty flag, returns the status of
that unpin and leaves the dirty flag false; when no page was pinned it returns
OK and changes nothing, the dirty flag included.  A second endScan right after
the first returns OK, calls no collaborator and leaves world and scan state
exactly as the first call left them. -/
theorem endScan_idempotent (w : World) (s : HeapFileScan) :
    (endScan w s).2.2.curPage = none
    ∧ (s.curPage ≠ none →
        (endScan w s).2.2.curDirtyFlag = false
        ∧ (endScan w s).1 = (w.unPinPage s.curPageNo s.curDirtyFlag).1
        ∧ (endScan w s).2.1.log = w.log ++ [Call.unPinPage s.curPageNo s.curDirtyFlag])
    ∧ (s.curPage = none → endScan w s = (Status.OK, w, s))
    ∧ endScan (endScan w s).2.1 (endScan w s).2.2
        = (Status.OK, (endScan w s).2.1, (endScan w s).2.2) := by
  cases hp : s.curPage with
  | none =>
    have h : endScan w s = (Status.OK, w, s) := by simp [endScan, hp]
    rw [h]
    exact ⟨hp, fun h => absurd rfl h, fun _ => rfl, h⟩
  | some p =>
    refine ⟨by simp [endScan, hp], fun _ => ⟨by simp [endScan, hp], by simp [endScan, hp],
      by simp [endScan, hp, unPinPage_log]⟩, fun h => by simp at h, ?_⟩
    simp [endScan, hp]

/-- Witness for C17 as amended: endScan on the freshly opened sample scan
returns OK with the dirty flag false, and a second endScan changes nothing. -/
theorem endScan_idempotent_witness :
    (endScan exOpenWorld exScan).2.2.curDirtyFlag = false
    ∧ (endScan exOpenWorld exScan).1 = Status.OK
    ∧ endScan (endScan exOpenWorld exScan).2.1 (endScan exOpenWorld exScan).2.2
        = (Status.OK, (endScan exOpenWorld exScan).2.1, (endScan exOpenWorld exScan).2.2) :=
  ⟨((endScan_idempotent exOpenWorld exScan).2.1 (by decide)).1, by decide,
   (endScan_idempotent exOpenWorld exScan).2.2.2⟩

/-- Counterexample to C17 as stated: markDirty sets the dirty flag; getRecord of
a record on another page unpins the current page and fails to read the new one,
so no page is pinned while the flag is still true; endScan then returns OK and
leaves the flag true. -/
theorem endScan_keeps_dirty_flag :
    exDirtyEnded.map (fun r => r.1.map (fun x => x.2))
      = some [Status.OK, Status.other 3, Status.OK]
    ∧ exDirtyEnded.map (fun r => r.2.scan.curPage) = some none
    ∧ exDirtyEnded.map (fun r => r.2.scan.curDirtyFlag) = some true := by
  decide

theorem Static.refl_static (w : World) : Static w w := ⟨rfl, rfl, rfl, rfl, rfl, rfl⟩

theorem Static.trans_static {a b c : World} (h1 : Static a b) (h2 : Static b c) : Static a c :=
  ⟨h2.1.trans h1.1, h2.2.1.trans h1.2.1, h2.2.2.1.trans h1.2.2.1,
    h2.2.2.2.1.trans h1.2.2.2.1, h2.2.2.2.2.1.trans h1.2.2.2.2.1,
    h2.2.2.2.2.2.trans h1.2.2.2.2.2⟩

theorem ScanFrame.refl_frame (s : HeapFileScan) : ScanFrame s s :=
  ⟨⟨rfl, rfl, rfl, rfl, rfl⟩, rfl, rfl, rfl, rfl⟩

theorem ScanFrame.trans_frame {a b c : HeapFileScan} (h1 : ScanFrame a b) (h2 : ScanFrame b c) :
    ScanFrame a c := by
  obtain ⟨⟨a1, a2, a3, a4, a5⟩, a6, a7, a8, a9⟩ := h1
  obtain ⟨⟨b1, b2, b3, b4, b5⟩, b6, b7, b8, b9⟩ := h2
  exact ⟨⟨b1.trans a1, b2.trans a2, b3.trans a3, b4.trans a4, b5.trans a5⟩,
    b6.trans a6, b7.trans a7, b8.trans a8, b9.trans a9⟩

theorem enter_static (w : World) (c : Call) : Static w (w.enter c).2 := by
  obtain ⟨fs, h⟩ := enter_spec w c
  rw [h]
  exact ⟨rfl, rfl, rfl, rfl, rfl, rfl⟩

theorem readPage_static (w : World) (pageNo : Int) (ptr : Option Int) :
    Static w (w.readPage pageNo ptr).2.1 := by
  obtain ⟨fs, h | h⟩ := readPage_spec w pageNo ptr <;> rw [h.2.2] <;>
    exact ⟨rfl, rfl, rfl, rfl, rfl, rfl⟩

theorem unPinPage_static (w : World) (pageNo : Int) (dirty : Bool) :
    Static w (w.unPinPage pageNo dirty).2 := by
  obtain ⟨fs, h | h⟩ := unPinPage_spec w pageNo dirty
  · rw [h.2.2]; exact ⟨rfl, rfl, rfl, rfl, rfl, rfl⟩
  · rw [h.2]; exact ⟨rfl, rfl, rfl, rfl, rfl, rfl⟩

theorem pageLoop_frame (fuel : Nat) (w : World) (s : HeapFileScan) (st : Status) (e : LoopExit)
    (h : pageLoop fuel w s st = some e) : Static w e.world ∧ ScanFrame s e.scan := by
  induction fuel generalizing w s st with
  | zero => simp [pageLoop] at h
  | succ fuel ih =>
    unfold pageLoop at h
    split at h
    · split at h
      · simp at h
      · rename_i p hp
        dsimp only at h
        split at h
        · simp only [Option.some.injEq] at h
          subst h
          exact ⟨Static.refl_static w, ScanFrame.refl_frame s⟩
        · split at h
          · simp only [Option.some.injEq] at h
            subst h
            exact ⟨unPinPage_static _ _ _, ⟨rfl, rfl, rfl, rfl, rfl⟩, rfl, rfl, rfl, rfl⟩
          · split at h
            · simp only [Option.some.injEq] at h
              subst h
              exact ⟨(unPinPage_static _ _ _).trans_static (readPage_static _ _ _),
                ⟨rfl, rfl, rfl, rfl, rfl⟩, rfl, rfl, rfl, rfl⟩
            · split at h
              · simp at h
              · have := ih _ _ _ h
                refine ⟨((unPinPage_static _ _ _).trans_static (readPage_static _ _ _)).trans_static this.1,
                  ScanFrame.trans_frame ?_ this.2⟩
                exact ⟨⟨rfl, rfl, rfl, rfl, rfl⟩, rfl, rfl, rfl, rfl⟩
    · simp only [Option.some.injEq] at h
      subst h
      exact ⟨Static.refl_static w, ScanFrame.refl_frame s⟩

theorem recLoop_frame (fuel : Nat) (w : World) (s : HeapFileScan) (r : ScanResult)
    (h : recLoop fuel w s = some r) : Static w r.world ∧ ScanFrame s r.scan := by
  induction fuel generalizing w s with
  | zero => simp [recLoop] at h
  | succ fuel ih =>
    unfold recLoop at h
    split at h
    · simp at h
    · rename_i p hp
      dsimp only at h
      have hs1 : ScanFrame s
          (if ((w.pageAt p).nextRecord s.curRec s.curRec).1 = Status.OK
            then { s with curRec := ((w.pageAt p).nextRecord s.curRec s.curRec).2 } else s) := by
        split
        · exact ⟨⟨rfl, rfl, rfl, rfl, rfl⟩, rfl, rfl, rfl, rfl⟩
        · exact ScanFrame.refl_frame s
      split at h
      · simp at h
      · rename_i st2 w2 s2 hpl
        simp only [Option.some.injEq] at h
        subst h
        have := pageLoop_frame _ _ _ _ _ hpl
        exact ⟨this.1, hs1.trans_frame this.2⟩
      · rename_i st2 w2 s2 hpl
        have hf := pageLoop_frame _ _ _ _ _ hpl
        have hf2 : ScanFrame s s2 := hs1.trans_frame hf.2
        split at h
        · simp at h
        · split at h
          · simp only [Option.some.injEq] at h
            subst h
            exact ⟨hf.1, hf2⟩
          · split at h
            · simp only [Option.some.injEq] at h
              subst h
              exact ⟨hf.1, hf2⟩
            · have := ih _ _ h
              exact ⟨Static.trans_static hf.1 this.1, hf2.trans_frame this.2⟩

theorem scanNext_frame (fuel : Nat) (w : World) (s : HeapFileScan) (r : ScanResult)
    (h : scanNext fuel w s = some r) : Static w r.world ∧ ScanFrame s r.scan := by
  unfold scanNext at h
  split at h
  · simp only [Option.some.injEq] at h
    subst h
    exact ⟨Static.refl_static w, ScanFrame.refl_frame s⟩
  · split at h
    · exact recLoop_frame fuel w s r h
    · dsimp only at h
      split at h
      · simp only [Option.some.injEq] at h
        subst h
        exact ⟨Static.refl_static w, ⟨rfl, rfl, rfl, rfl, rfl⟩, rfl, rfl, rfl, rfl⟩
      · split at h
        · simp only [Option.some.injEq] at h
          subst h
          exact ⟨readPage_static _ _ _, ⟨rfl, rfl, rfl, rfl, rfl⟩, rfl, rfl, rfl, rfl⟩
        · split at h
          · simp at h
          · split at h
            · split at h
              · simp only [Option.some.injEq] at h
                subst h
                exact ⟨(readPage_static _ _ _).trans_static (unPinPage_static _ _ _),
                  ⟨rfl, rfl, rfl, rfl, rfl⟩, rfl, rfl, rfl, rfl⟩
              · simp only [Option.some.injEq] at h
                subst h
                exact ⟨(readPage_static _ _ _).trans_static (unPinPage_static _ _ _),
                  ⟨rfl, rfl, rfl, rfl, rfl⟩, rfl, rfl, rfl, rfl⟩
            · split at h
              · simp only [Option.some.injEq] at h
                subst h
                exact ⟨readPage_static _ _ _, ⟨rfl, rfl, rfl, rfl, rfl⟩, rfl, rfl, rfl, rfl⟩
              · split at h
                · simp only [Option.some.injEq] at h
                  subst h
                  exact ⟨readPage_static _ _ _, ⟨rfl, rfl, rfl, rfl, rfl⟩, rfl, rfl, rfl, rfl⟩
                · have := recLoop_frame _ _ _ _ h
                  refine ⟨(readPage_static _ _ _).trans_static this.1, ScanFrame.trans_frame ?_ this.2⟩
                  exact ⟨⟨rfl, rfl, rfl, rfl, rfl⟩, rfl, rfl, rfl, rfl⟩

/-- C11, evaluation at the failing input: the sample file has the chain
1 → 2 → 3 and `lastPage = 3`; the constructor leaves the insert handle on the
first page 1.  A 4-byte record is then stored on page 1 (RID (1,1)), not on the
last page.  A 1001-byte record, for which page 1 has no room, is stored on the
new page 4, and it is page 1 whose next link is set to 4: the chain from the
first page becomes 1 → 4, pages 2 and 3 are no longer on it, and page 3 still
carries the end sentinel. -/
theorem insertRecord_on_first_page :
    exInsOpen.1 = Status.OK
    ∧ isChain exWorld.pages exWorld.header.firstPage [1, 2, 3] = true
    ∧ exWorld.header.lastPage = 3
    ∧ exInsOpen.2.2.curPageNo = 1
    ∧ (insertRecord exInsOpen.2.1 exInsOpen.2.2 (exRec 1)).status = Status.OK
    ∧ (insertRecord exInsOpen.2.1 exInsOpen.2.2 (exRec 1)).outRid = some ⟨1, 1⟩
    ∧ (insertRecord exInsOpen.2.1 exInsOpen.2.2 ⟨[], 1001⟩).status = Status.OK
    ∧ (insertRecord exInsOpen.2.1 exInsOpen.2.2 ⟨[], 1001⟩).outRid = some ⟨4, 0⟩
    ∧ ((insertRecord exInsOpen.2.1 exInsOpen.2.2 ⟨[], 1001⟩).world.pageAt 1).nextPage = 4
    ∧ (insertRecord exInsOpen.2.1 exInsOpen.2.2 ⟨[], 1001⟩).world.header.lastPage = 4
    ∧ isChain (insertRecord exInsOpen.2.1 exInsOpen.2.2 ⟨[], 1001⟩).world.pages 1 [1, 4] = true
    ∧ ((insertRecord exInsOpen.2.1 exInsOpen.2.2 ⟨[], 1001⟩).world.pageAt 3).nextPage = -1 := by
  decide

/-- C15, evaluation at the failing input: with the file opened successfully, the
constructor reports OK although getFirstPage failed (second collaborator call),
although the read of the header page failed (third call; page 0 holds no pin),
and although the read of the first data page failed (fourth call; page 1 holds
no pin). -/
theorem open_reports_ok_after_failure :
    (HeapFile.ctor { exWorld with faults := [Status.OK, Status.other 5] } exHandle).1 = Status.OK
    ∧ (HeapFile.ctor { exWorld with faults := [Status.OK, Status.OK, Status.other 5] }
        exHandle).1 = Status.OK
    ∧ (HeapFile.ctor { exWorld with faults := [Status.OK, Status.OK, Status.other 5] }
        exHandle).2.1.pins 0 = 0
    ∧ (HeapFile.ctor { exWorld with faults := [Status.OK, Status.OK, Status.OK, Status.other 5] }
        exHandle).1 = Status.OK
    ∧ (HeapFile.ctor { exWorld with faults := [Status.OK, Status.OK, Status.OK, Status.other 5] }
        exHandle).2.1.pins 1 = 0 := by
  decide

/-- The status the constructor reports is the status of `db.openFile`, whatever
the later collaborator calls return. -/
theorem ctor_status (w : World) (mem : HeapFile) :
    (HeapFile.ctor w mem).1 = (w.enter Call.openFile).1 := by
  unfold HeapFile.ctor
  split
  · rename_i h; rw [h]
  · rename_i st w1 hne h; rw [h]

/-- C18, evaluation at the failing input: the file has the chain 1 → 2, page 1
holds no record and page 2 holds the record (2,0).  A scan without predicate
that was ended with endScan (no page pinned) returns FILEEOF from scanNext and
parks at page number -1; the record on page 2 is not returned. -/
theorem scanNext_empty_first_page :
    exEnded.1 = Status.OK
    ∧ exEnded.2.2.curPage = none
    ∧ exEnded.2.2.filter = none
    ∧ isChain gapWorld.pages gapWorld.header.firstPage [1, 2] = true
    ∧ chainRids gapWorld.pages [1, 2] = [⟨2, 0⟩]
    ∧ (scanNext 10 exEnded.2.1 exEnded.2.2).map (fun r => (r.status, r.outRid))
        = some (Status.FILEEOF, none)
    ∧ (scanNext 10 exEnded.2.1 exEnded.2.2).map (fun r => r.scan.curPageNo) = some (-1) := by
  decide

/-- C19, evaluation at the failing input: a scan on the sample file is marked on
page 1 and advances to page 3; resetScan unpins page 3 and the read of page 1
fails.  resetScan returns the failure with the page pointer still set (to the
frame of page 3) and `curPageNo = 1`, while the handle holds no data-page pin;
the endScan that follows unpins page 1, which yields PAGENOTPINNED.  Likewise
insertRecord, when setNextPage on the newly allocated page 4 fails, returns with
page 3 still pinned and the pin on page 4 never released. -/
theorem resetScan_failed_read_keeps_pointer :
    exFailedReset.map (fun r => r.1.map (fun x => x.2))
      = some [Status.OK, Status.OK, Status.OK, Status.OK, Status.other 9]
    ∧ exFailedReset.map (fun r => r.2.scan.curPage) = some (some 3)
    ∧ exFailedReset.map (fun r => r.2.scan.curPageNo) = some 1
    ∧ exFailedReset.map (fun r => (r.2.world.pins 1, r.2.world.pins 2, r.2.world.pins 3))
        = some (0, 0, 0)
    ∧ exFailedReset.map (fun r => (endScan r.2.world r.2.scan).1) = some Status.PAGENOTPINNED
    ∧ (insertRecord { exPinned with faults := [Status.OK, Status.other 7] } exHandle
        ⟨[], 1001⟩).status = Status.other 7
    ∧ (insertRecord { exPinned with faults := [Status.OK, Status.other 7] } exHandle
        ⟨[], 1001⟩).handle.curPage = some 3
    ∧ (insertRecord { exPinned with faults := [Status.OK, Status.other 7] } exHandle
        ⟨[], 1001⟩).world.pins 3 = 1
    ∧ (insertRecord { exPinned with faults := [Status.OK, Status.other 7] } exHandle
        ⟨[], 1001⟩).world.pins 4 = 1 := by
  decide

/-- C20, evaluation at the failing input: on a fresh file one record is inserted,
the scan is positioned on it, and deleteRecord is called twice.  The second
page-level delete fails with INVALIDSLOTNO, yet the header count is decremented
again: `recCnt = -1` while the file holds 0 live records. -/
theorem deleteRecord_twice_miscounts :
    exDoubleDelete.map (fun r => r.1.map (fun x => x.2))
      = some [Status.OK, Status.OK, Status.OK, Status.INVALIDSLOTNO]
    ∧ exDoubleDelete.map (fun r => r.2.world.header.recCnt) = some (-1)
    ∧ exDoubleDelete.map (fun r => liveCount r.2.world.pages [1]) = some 0
    ∧ exDoubleDelete.map (fun r => isChain r.2.world.pages r.2.world.header.firstPage [1])
        = some true := by
  decide

theorem allocPage_header (w : World) : (w.allocPage).2.1.header = w.header := by
  unfold World.allocPage
  split
  · rename_i w1 he
    have := (enter_static w Call.allocPage).1
    rw [he] at this
    exact this
  · rename_i st w1 hne he
    have := (enter_static w Call.allocPage).1
    rw [he] at this
    exact this

theorem setNextPage_header (w : World) (p next : Int) :
    (w.setNextPage p next).2.header = w.header := by
  unfold World.setNextPage
  split
  · rename_i w1 he
    have := (enter_static w (Call.setNextPage p next)).1
    rw [he] at this
    exact this
  · rename_i st w1 hne he
    have := (enter_static w (Call.setNextPage p next)).1
    rw [he] at this
    exact this

theorem insertRecord_header (w : World) (p : Int) (rec : Record) :
    (w.insertRecord p rec).2.1.header = w.header := by
  unfold World.insertRecord
  split <;> rfl

theorem initPage_header (w : World) (p n : Int) : (w.initPage p n).header = w.header := rfl

theorem insertCur_recCnt (w : World) (s : HeapFile) (p : Int) (rec : Record) :
    (insertCur w s p rec).world.header.recCnt =
      w.header.recCnt + (if (insertCur w s p rec).status = Status.OK then 1 else 0) := by
  generalize hr : insertCur w s p rec = r
  unfold insertCur at hr
  split at hr
  · rename_i w1 rid h1
    have e1 : w1.header = w.header := by rw [← insertRecord_header w p rec, h1]
    subst hr
    simp [e1]
  · rename_i st1 w1 rid hne h1
    have e1 : w1.header = w.header := by rw [← insertRecord_header w p rec, h1]
    split at hr
    · rename_i w2 newPageNo h2
      have e2 : w2.header = w1.header := by rw [← allocPage_header w1, h2]
      split at hr
      · rename_i w4 h4
        have e4 : w4.header = w2.header := by
          have := setNextPage_header (w2.initPage newPageNo newPageNo) newPageNo (-1)
          rw [h4] at this
          exact this
        dsimp only at hr
        split at hr
        · rename_i w6 h6
          have e6 : w6.header.recCnt = w4.header.recCnt := by
            have := setNextPage_header
              { w4 with header := { w4.header with lastPage := newPageNo,
                                                   pageCnt := w4.header.pageCnt + 1 } } p newPageNo
            rw [h6] at this
            simp only at this
            rw [this]
          split at hr
          · rename_i w7 h7
            have e7 : w7.header = w6.header := by
              have := (unPinPage_static w6 s.curPageNo true).1
              rw [h7] at this
              exact this
            split at hr
            · rename_i w8 rid8 h8
              have e8 : w8.header = w7.header := by
                rw [← insertRecord_header w7 newPageNo rec, h8]
              subst hr
              simp [e8, e7, e6, e4, e2, e1]
            · rename_i st8 w8 rid8 hne8 h8
              have e8 : w8.header = w7.header := by
                rw [← insertRecord_header w7 newPageNo rec, h8]
              have : ¬ (st8 = Status.OK) := by
                intro h
                exact hne8 h
              subst hr
              simp [e8, e7, e6, e4, e2, e1, this]
          · rename_i st7 w7 hne7 h7
            have e7 : w7.header = w6.header := by
              have := (unPinPage_static w6 s.curPageNo true).1
              rw [h7] at this
              exact this
            have e7b := (unPinPage_static w7 newPageNo true).1
            have : ¬ (st7 = Status.OK) := fun h => hne7 h
            subst hr
            simp [e7b, e7, e6, e4, e2, e1, this]
        · rename_i st6 w6 hne6 h6
          have e6 : w6.header.recCnt = w4.header.recCnt := by
            have := setNextPage_header
              { w4 with header := { w4.header with lastPage := newPageNo,
                                                   pageCnt := w4.header.pageCnt + 1 } } p newPageNo
            rw [h6] at this
            simp only at this
            rw [this]
          have : ¬ (st6 = Status.OK) := fun h => hne6 h
          subst hr
          simp [e6, e4, e2, e1, this]
      · rename_i st4 w4 hne4 h4
        have e4 : w4.header = w2.header := by
          have := setNextPage_header (w2.initPage newPageNo newPageNo) newPageNo (-1)
          rw [h4] at this
          exact this
        have : ¬ (st4 = Status.OK) := fun h => hne4 h
        subst hr
        simp [e4, e2, e1, this]
    · rename_i st2 w2 x2 hne2 h2
      have e2 : w2.header = w1.header := by rw [← allocPage_header w1, h2]
      have : ¬ (st2 = Status.OK) := by
        intro h
        subst h
        obtain ⟨fs, hx, -⟩ := allocPage_ok h2
        exact hne2 _ rfl hx
      subst hr
      simp [e2, e1, this]

theorem pinLast_ok_ptr (w : World) (s : HeapFile) (h : (pinLast w s).1 = Status.OK) :
    (pinLast w s).2.2.curPage ≠ none := by
  cases hp : s.curPage with
  | some p => simp [pinLast, hp]
  | none =>
    simp only [pinLast, hp] at h ⊢
    rw [readPage_ok_ptr w w.header.lastPage none h]
    simp

theorem insertRecord_recCnt (w : World) (s : HeapFile) (rec : Record) :
    (insertRecord w s rec).world.header.recCnt =
      w.header.recCnt + (if (insertRecord w s rec).status = Status.OK then 1 else 0) := by
  generalize hr : insertRecord w s rec = r
  unfold insertRecord at hr
  split at hr
  · subst hr
    simp
  · split at hr
    · rename_i p h1 h2
      subst hr
      rw [insertCur_recCnt, pinLast_header]
    · rename_i st x hne
      have : ¬ ((pinLast w s).1 = Status.OK) := by
        intro h
        have hp := pinLast_ok_ptr w s h
        cases hx : (pinLast w s).2.2.curPage with
        | none => exact hp hx
        | some p => exact hne p h hx
      subst hr
      simp [this, pinLast_header]

theorem getRecordRead_header (w : World) (s : HeapFile) (rid : RID) :
    (getRecordRead w s rid).world.header = w.header := by
  have h := (readPage_static w rid.pageNo s.curPage).1
  unfold getRecordRead
  split
  · rename_i w1 q he
    rw [he] at h
    split <;> exact h
  · rename_i st w1 ptr hne he
    rw [he] at h
    exact h

theorem getRecord_header (w : World) (s : HeapFile) (rid : RID) :
    (getRecord w s rid).world.header = w.header := by
  unfold getRecord
  split
  · split
    · split <;> rfl
    · have h := (unPinPage_static w s.curPageNo s.curDirtyFlag).1
      split
      · rename_i w1 he
        rw [he] at h
        rw [getRecordRead_header]
        exact h
      · rename_i st w1 hne he
        rw [he] at h
        exact h
  · exact getRecordRead_header w s rid

theorem endScan_header (w : World) (s : HeapFileScan) :
    (endScan w s).2.1.header = w.header := by
  unfold endScan
  split
  · exact (unPinPage_static w s.curPageNo s.curDirtyFlag).1
  · rfl

theorem resetScan_header (w : World) (s : HeapFileScan) :
    (resetScan w s).2.1.header = w.header := by
  unfold resetScan
  split
  · have key : ∀ x : Status × World, x.2.header = w.header →
        (match x with
          | (Status.OK, w1) =>
            match w1.readPage s.markedPageNo s.curPage with
            | (Status.OK, w2, ptr) =>
              (Status.OK, w2, { s with curPageNo := s.markedPageNo, curRec := s.markedRec,
                                       curPage := ptr, curDirtyFlag := false })
            | (st, w2, ptr) =>
              (st, w2, { s with curPageNo := s.markedPageNo, curRec := s.markedRec,
                                curPage := ptr })
          | (st, w1) => (st, w1, s)).2.1.header = w.header := by
      intro x hx
      split
      · rename_i w1
        have h := (readPage_static w1 s.markedPageNo s.curPage).1
        split
        · rename_i w2 ptr he
          rw [he] at h
          exact h.trans hx
        · rename_i st w2 ptr hne he
          rw [he] at h
          exact h.trans hx
      · exact hx
    apply key
    split
    · exact (unPinPage_static w s.curPageNo s.curDirtyFlag).1
    · rfl
  · rfl

theorem deleteRecord_recCnt (w : World) (s : HeapFileScan) (r : Status × World × HeapFileScan)
    (h : deleteRecord w s = some r) : r.2.1.header.recCnt = w.header.recCnt - 1 := by
  unfold deleteRecord at h
  split at h
  · simp at h
  · rename_i p hp
    simp only [Option.some.injEq] at h
    subst h
    dsimp only
    unfold World.deleteRecord
    split <;> rfl

theorem step_recCnt (σ σ1 : Sys) (op : Op) (st : Status) (h : σ.step op = some (st, σ1)) :
    σ1.world.header.recCnt = σ.world.header.recCnt + Op.delta (op, st) := by
  cases op with
  | insertRecord rec =>
    simp only [Sys.step, Option.some.injEq, Prod.mk.injEq] at h
    obtain ⟨h1, h2⟩ := h
    subst h2
    subst h1
    simp only [Op.delta, Op.isInsert, Op.isDelete]
    rw [insertRecord_recCnt]
    simp
  | deleteRecord =>
    simp only [Sys.step, Option.map_eq_some'] at h
    obtain ⟨r, hr, h2⟩ := h
    simp only [Prod.mk.injEq] at h2
    obtain ⟨h1, h2⟩ := h2
    subst h2
    have := deleteRecord_recCnt σ.world σ.scan r hr
    simp only [Op.delta, Op.isInsert, Op.isDelete]
    rw [this]
    simp
    omega
  | scanNext fuel =>
    simp only [Sys.step, Option.map_eq_some'] at h
    obtain ⟨r, hr, h2⟩ := h
    simp only [Prod.mk.injEq] at h2
    obtain ⟨h1, h2⟩ := h2
    subst h2
    have := (scanNext_frame fuel σ.world σ.scan r hr).1.1
    simp [Op.delta, Op.isInsert, Op.isDelete, this]
  | getRecord rid =>
    simp only [Sys.step, Option.some.injEq, Prod.mk.injEq] at h
    obtain ⟨h1, h2⟩ := h
    subst h2
    simp [Op.delta, Op.isInsert, Op.isDelete, getRecord_header]
  | startScan o l t f op =>
    simp only [Sys.step, Option.some.injEq, Prod.mk.injEq] at h
    obtain ⟨h1, h2⟩ := h
    subst h2
    simp [Op.delta, Op.isInsert, Op.isDelete]
  | markScan =>
    simp only [Sys.step, Option.some.injEq, Prod.mk.injEq] at h
    obtain ⟨h1, h2⟩ := h
    subst h2
    simp [Op.delta, Op.isInsert, Op.isDelete]
  | resetScan =>
    simp only [Sys.step, Option.some.injEq, Prod.mk.injEq] at h
    obtain ⟨h1, h2⟩ := h
    subst h2
    simp [Op.delta, Op.isInsert, Op.isDelete, resetScan_header]
  | endScan =>
    simp only [Sys.step, Option.some.injEq, Prod.mk.injEq] at h
    obtain ⟨h1, h2⟩ := h
    subst h2
    simp [Op.delta, Op.isInsert, Op.isDelete, endScan_header]
  | markDirty =>
    simp only [Sys.step, Option.some.injEq, Prod.mk.injEq] at h
    obtain ⟨h1, h2⟩ := h
    subst h2
    simp [Op.delta, Op.isInsert, Op.isDelete]

theorem run_recCnt (ops : List Op) (σ σ2 : Sys) (tr : List (Op × Status))
    (h : σ.run ops = some (tr, σ2)) :
    σ2.world.header.recCnt = σ.world.header.recCnt + (tr.map Op.delta).sum
      ∧ tr.map Prod.fst = ops := by
  induction ops generalizing σ tr with
  | nil =>
    simp only [Sys.run, Option.some.injEq, Prod.mk.injEq] at h
    obtain ⟨h1, h2⟩ := h
    subst h1
    subst h2
    simp
  | cons op ops ih =>
    unfold Sys.run at h
    split at h
    · simp at h
    · rename_i st σ1 hs
      split at h
      · simp at h
      · rename_i tr1 σ3 hr
        simp only [Option.some.injEq, Prod.mk.injEq] at h
        obtain ⟨h1, h2⟩ := h
        subst h1
        subst h2
        obtain ⟨i1, i2⟩ := ih σ1 tr1 hr
        have := step_recCnt σ σ1 op st hs
        refine ⟨?_, ?_⟩
        · rw [i1, this]
          simp only [List.map_cons, List.sum_cons]
          omega
        · simp [i2]

theorem delta_sum (tr : List (Op × Status))
    (hok : ∀ x ∈ tr, (x.1.isInsert = true ∨ x.1.isDelete = true) → x.2 = Status.OK) :
    (tr.map Op.delta).sum =
      (tr.countP (fun x => x.1.isInsert && decide (x.2 = Status.OK)) : Int)
        - (tr.countP (fun x => x.1.isDelete && decide (x.2 = Status.OK)) : Int) := by
  induction tr with
  | nil => simp
  | cons x tr ih =>
    have ih2 := ih (fun y hy => hok y (List.mem_cons_of_mem x hy))
    have hx := hok x (List.mem_cons_self x tr)
    simp only [List.map_cons, List.sum_cons, List.countP_cons, ih2, Op.delta]
    by_cases hi : x.1.isInsert = true <;> by_cases hd : x.1.isDelete = true
    · have := hx (Or.inl hi)
      simp [hi, hd, this]
    · have := hx (Or.inl hi)
      simp [hi, hd, this]
      omega
    · have := hx (Or.inr hd)
      simp [hi, hd, this]
      omega
    · simp [hi, hd]

/-- C12. For every sequence of operations run from a state whose record count
is 0, in which every insertRecord and every deleteRecord returned OK, getRecCnt
afterwards is the number of inserts that returned OK minus the number of
deletes that returned OK.  Every insertRecord that returns OK raises the count
by exactly 1, in particular one whose page-level insert on the current page
failed and that went through the allocation of a new page. -/
theorem recCnt_inserts_minus_deletes (σ σ2 : Sys) (ops : List Op) (tr : List (Op × Status))
    (hrun : σ.run ops = some (tr, σ2))
    (hfresh : getRecCnt σ.world = 0)
    (hok : ∀ x ∈ tr, (x.1.isInsert = true ∨ x.1.isDelete = true) → x.2 = Status.OK) :
    getRecCnt σ2.world =
        (tr.countP (fun x => x.1.isInsert && decide (x.2 = Status.OK)) : Int)
          - (tr.countP (fun x => x.1.isDelete && decide (x.2 = Status.OK)) : Int)
      ∧ tr.map Prod.fst = ops
      ∧ (∀ (w : World) (s : HeapFile) (rec : Record),
          (insertRecord w s rec).status = Status.OK →
            getRecCnt (insertRecord w s rec).world = getRecCnt w + 1)
      ∧ (∀ (w : World) (s : HeapFile) (p : Int) (rec : Record),
          (w.insertRecord p rec).1 ≠ Status.OK → (insertCur w s p rec).status = Status.OK →
            getRecCnt (insertCur w s p rec).world = getRecCnt w + 1) := by
  obtain ⟨h1, h2⟩ := run_recCnt ops σ σ2 tr hrun
  refine ⟨?_, h2, ?_, ?_⟩
  · unfold getRecCnt at hfresh ⊢
    rw [h1, hfresh, delta_sum tr hok]
    simp
  · intro w s rec h
    unfold getRecCnt
    rw [insertRecord_recCnt, if_pos h]
  · intro w s p rec _ h
    unfold getRecCnt
    rw [insertCur_recCnt, if_pos h]

/-- The sample run `exCount` returns. -/
theorem exCount_isSome : exCount.isSome = true := by decide

/-- Witness for C12: on a fresh file, two inserts (the second through a new
page), a scan step, a delete and a failing getRecord leave the count at 1. -/
theorem recCnt_inserts_minus_deletes_witness :
    exCount.map (fun r => r.1.map Prod.snd)
        = some [Status.OK, Status.OK, Status.OK, Status.OK, Status.INVALIDSLOTNO]
      ∧ getRecCnt (exCount.get exCount_isSome).2.world = 1
      ∧ (exCount.get exCount_isSome).2.world.header.pageCnt = 2 :=
  ⟨by decide,
    ((recCnt_inserts_minus_deletes (Sys.open freshWorld c3Scan) (exCount.get exCount_isSome).2
      [Op.insertRecord (exRec 5), Op.insertRecord ⟨[], 1001⟩, Op.scanNext 5, Op.deleteRecord,
        Op.getRecord ⟨1, 0⟩]
      (exCount.get exCount_isSome).1 (by simp [exCount]) (by decide) (by decide)).1).trans
      (by decide),
    by decide⟩

/-- C1, evaluation at the failing input: a scan on the sample file 1 → 2 → 3
returns (1,0), is marked, and advances to (1,2) and (3,1) on page 3; resetScan
then unpins page 3 and the read of page 1 fails, which leaves the page pointer
on the frame of page 3 with `curPageNo = 1`.  The collaborators fail no more.
The next scanNext returns OK with the RID (3,1), whose record is stored on
page 3, and the cursor is (3,1); but `curPageNo` is 1, not 3, and neither
page 1 nor page 3 holds a pin. -/
theorem scanNext_after_failed_reset :
    exFailedReset.map (fun r => r.1.map (fun x => x.2))
      = some [Status.OK, Status.OK, Status.OK, Status.OK, Status.other 9]
    ∧ exFailedReset.map (fun r => r.2.world.faults) = some []
    ∧ (exFailedReset.bind (fun r => scanNext 5 r.2.world r.2.scan)).map
        (fun r => (r.status, r.outRid, r.scan.curRec, r.scan.curPage, r.scan.curPageNo))
        = some (Status.OK, some ⟨3, 1⟩, ⟨3, 1⟩, some 3, 1)
    ∧ (exFailedReset.bind (fun r => scanNext 5 r.2.world r.2.scan)).map
        (fun r => (r.world.pins 1, r.world.pins 3)) = some (0, 0)
    ∧ (exFailedReset.bind (fun r => scanNext 5 r.2.world r.2.scan)).map
        (fun r => (r.world.pageAt 3).getRecord ⟨3, 1⟩) = some (some (exRec 9)) := by
  decide

/-- C2, evaluation at the failing input: on a fresh file one record is inserted
and deleteRecord is called twice at the same cursor, the second page-level
delete failing.  The file left has the chain [1] and no collaborator failure
pending; a freshly opened scan without predicate returns no RID and then
FILEEOF, the file holding 0 live records, while `getRecCnt` is -1. -/
theorem scan_count_after_failed_delete :
    exDoubleDelete.map (fun r => r.1.map (fun x => x.2))
      = some [Status.OK, Status.OK, Status.OK, Status.INVALIDSLOTNO]
    ∧ exMiscounted.faults = []
    ∧ isChain exMiscounted.pages exMiscounted.header.firstPage [1] = true
    ∧ (HeapFileScan.ctor exMiscounted c3Scan).1 = Status.OK
    ∧ exMiscountedScan.map (fun t => (t.1, t.2.1)) = some ([], Status.FILEEOF)
    ∧ liveCount exMiscounted.pages [1] = 0
    ∧ getRecCnt exMiscounted = -1 := by
  decide

end HeapFileModel
